import Mathlib

/-!
Verification of the self-healing-agent transcript extraction engine and
repair orchestrator.  Python strings are modelled as `List Char`; the
string-scanning primitives (`str.find`, `str.rfind`, `re.finditer`,
slicing, `str.strip`, `str.split`) are embedded below and the extractor,
formatter, test-execution adapter and repair loop are translated from the
source on top of them.
-/

namespace SelfHealing

abbrev Str := List Char

/-- Characters Python's `str.strip()` removes. -/
def pySpace (c : Char) : Bool :=
  c = ' ' || c = '\t' || c = '\n' || c = '\r' || c = '\x0b' || c = '\x0c'

/-- Python `str.lstrip()`. -/
def lstrip (s : Str) : Str := s.dropWhile pySpace

/-- Python `str.rstrip()`. -/
def rstrip (s : Str) : Str := (lstrip s.reverse).reverse

/-- Python `str.strip()`. -/
def pyStrip (s : Str) : Str := rstrip (lstrip s)

/-- `True` iff `pat` occurs in `s` at offset `i` (`s[i:].startswith(pat)`). -/
def occAt (pat s : Str) (i : Nat) : Prop := pat <+: s.drop i

instance (pat s : Str) (i : Nat) : Decidable (occAt pat s i) := by
  unfold occAt; infer_instance

/-- Helper for `pyFind`: least offset (counted from `acc`) where `pat` occurs. -/
def firstOccAux (pat : Str) : Str → Nat → Option Nat
  | s, acc =>
    if pat.isPrefixOf s then some acc
    else
      match s with
      | [] => none
      | _ :: t => firstOccAux pat t (acc + 1)

/-- Python `s.find(pat)` (as `Option`; `none` stands for `-1`). -/
def pyFind (pat s : Str) : Option Nat := firstOccAux pat s 0

/-- Python `s.find(pat, start)`. -/
def pyFindFrom (pat s : Str) (start : Nat) : Option Nat :=
  (pyFind pat (s.drop start)).map (· + start)

/-- Helper for `pyRFind`: greatest offset where `pat` occurs. -/
def lastOccAux (pat : Str) : Str → Nat → Option Nat → Option Nat
  | s, acc, best =>
    let best' := if pat.isPrefixOf s then some acc else best
    match s with
    | [] => best'
    | _ :: t => lastOccAux pat t (acc + 1) best'

/-- Python `s.rfind(pat)` (as `Option`; `none` stands for `-1`). -/
def pyRFind (pat s : Str) : Option Nat := lastOccAux pat s 0 none

/-- Python slice `s[a:b]` (for `0 ≤ a ≤ b`; both clamped to the length). -/
def pySlice (s : Str) (a b : Nat) : Str := (s.take b).drop a

/-- Python slice `s[-k:]`: the last `k` characters (all of `s` if `k ≥ len`). -/
def pyLast (s : Str) (k : Nat) : Str := s.drop (s.length - k)

/-- Python slice `s[:k]`: the first `k` characters. -/
def pyTake (s : Str) (k : Nat) : Str := s.take k

/-- `re.finditer(pat, s)` for a literal pattern: start offsets of the
non-overlapping leftmost matches. After a match the next `skip`
characters are not match candidates (the scanner resumes past the
match). -/
def findIterAux (pat : Str) : Str → Nat → Nat → List Nat
  | [], _, _ => []
  | c :: t, i, skip =>
    match skip with
    | k + 1 => findIterAux pat t (i + 1) k
    | 0 =>
      if pat.isPrefixOf (c :: t) then
        i :: findIterAux pat t (i + 1) (pat.length - 1)
      else
        findIterAux pat t (i + 1) 0

/-- `re.finditer` over a literal, nonempty pattern. -/
def findIter (pat s : Str) : List Nat :=
  match pat with
  | [] => []
  | _ => findIterAux pat s 0 0

/-- Leftmost match of the regex `pre(.*?)post` (both literal, DOTALL):
the captured lazy group. -/
def reSearchLazy (pre post s : Str) : Option Str :=
  match pyFind pre s with
  | none => none
  | some i =>
    let rest := s.drop (i + pre.length)
    match pyFind post rest with
    | none => none
    | some q => some (rest.take q)

/-- Leftmost match of the regex `pre([^\n]+)` (literal `pre`): the
captured maximal nonempty run of non-newline characters. -/
def reSearchLine (pre : Str) : Str → Option Str
  | [] => none
  | s@(_ :: t) =>
    if pre.isPrefixOf s then
      let cap := (s.drop pre.length).takeWhile (· ≠ '\n')
      if cap = [] then reSearchLine pre t else some cap
    else reSearchLine pre t

/-- Python `s.split("\n")`. -/
def splitNl (s : Str) : List Str := s.splitOn '\n'

/-- Python `"\n".join(parts)`. -/
def joinNl (parts : List Str) : Str := List.intercalate ['\n'] parts

/-- String-literal convenience: the character list of a literal. -/
def lit (s : String) : Str := s.data

/-! ## JSON values (the data held by Python dict/list/str/int/bool/None) -/

inductive Json where
  | null
  | bool (b : Bool)
  | num (n : Int)
  | str (s : Str)
  | arr (elems : List Json)
  | obj (kvs : List (Str × Json))

/-- Lowercase hex digit. -/
def hexDigit (n : Nat) : Char :=
  if n < 10 then Char.ofNat ('0'.toNat + n) else Char.ofNat ('a'.toNat + n - 10)

/-- `json.dumps` escaping of one character (`ensure_ascii=False`). -/
def escapeChar (c : Char) : Str :=
  if c = '\\' then ['\\', '\\']
  else if c = '"' then ['\\', '"']
  else if c = '\n' then ['\\', 'n']
  else if c = '\r' then ['\\', 'r']
  else if c = '\t' then ['\\', 't']
  else if c = '\x08' then ['\\', 'b']
  else if c = '\x0c' then ['\\', 'f']
  else if c.toNat < 0x20 then
    ['\\', 'u', '0', '0', hexDigit (c.toNat / 16), hexDigit (c.toNat % 16)]
  else [c]

/-- `json.dumps` of a string value. -/
def dumpStr (s : Str) : Str := '"' :: s.flatMap escapeChar ++ ['"']

/-- Decimal digits of a natural number. -/
def natStr (n : Nat) : Str := (Nat.repr n).data

/-- Python decimal rendering of an integer. -/
def intStr : Int → Str
  | .ofNat n => natStr n
  | .negSucc n => '-' :: natStr (n + 1)

/-- `indent=2` indentation at nesting level `L`. -/
def sp (L : Nat) : Str := List.replicate (2 * L) ' '

lemma Json.one_le_sizeOf : ∀ j : Json, 1 ≤ sizeOf j := by
  intro j; cases j <;> simp_arith

mutual

/-- `json.dumps(v, indent=2, ensure_ascii=False)` at nesting level `L`. -/
def dumpsVal : Json → Nat → Str
  | .null, _ => lit "null"
  | .bool true, _ => lit "true"
  | .bool false, _ => lit "false"
  | .num n, _ => intStr n
  | .str s, _ => dumpStr s
  | .arr [], _ => lit "[]"
  | .arr (e :: es), L =>
    '[' :: '\n' :: sp (L + 1) ++ dumpsItems e es (L + 1) ++ '\n' :: sp L ++ [']']
  | .obj [], _ => lit "{}"
  | .obj (kv :: kvs), L =>
    '{' :: '\n' :: sp (L + 1) ++ dumpsPairs kv kvs (L + 1) ++ '\n' :: sp L ++ ['}']
  termination_by j _ => sizeOf j
  decreasing_by
    all_goals first
      | (simp; omega)
      | (cases kv; simp; omega)

/-- Comma-and-newline separated array items. -/
def dumpsItems : Json → List Json → Nat → Str
  | e, [], L => dumpsVal e L
  | e, e' :: es, L => dumpsVal e L ++ ',' :: '\n' :: sp L ++ dumpsItems e' es L
  termination_by e es _ => sizeOf e + sizeOf es + 1
  decreasing_by
    all_goals (simp; omega)

/-- Comma-and-newline separated `"key": value` pairs. -/
def dumpsPairs : Str × Json → List (Str × Json) → Nat → Str
  | (k, v), [], L => dumpStr k ++ ':' :: ' ' :: dumpsVal v L
  | (k, v), p :: ps, L =>
    dumpStr k ++ ':' :: ' ' :: dumpsVal v L ++ ',' :: '\n' :: sp L ++ dumpsPairs p ps L
  termination_by kv ps _ => sizeOf kv.2 + sizeOf ps + 1
  decreasing_by
    all_goals first
      | (simp; omega)
      | (cases p; simp; omega)

end

/-- `json.dumps(v, indent=2, ensure_ascii=False)`. -/
def dumps (j : Json) : Str := dumpsVal j 0

/-- Python truthiness of a JSON-shaped value. -/
def truthy : Json → Bool
  | .null => false
  | .bool b => b
  | .num n => n != 0
  | .str s => !s.isEmpty
  | .arr l => !l.isEmpty
  | .obj l => !l.isEmpty

/-- Python `dict.get` over the insertion-ordered pairs. -/
def dictGet (kvs : List (Str × Json)) (k : Str) : Option Json :=
  (kvs.find? (fun kv => kv.1 == k)).map (·.2)

/-- `ConversationFormatter.format_tool_output`: dict/list are
JSON-dumped, strings pass through, anything else is `str()`-rendered. -/
def format_tool_output : Json → Str
  | .obj kvs => dumps (.obj kvs)
  | .arr es => dumps (.arr es)
  | .str s => s
  | .null => lit "None"
  | .bool true => lit "True"
  | .bool false => lit "False"
  | .num n => intStr n

/-! ## Transcript extractor (`playwright_extractor.py`)

The `json.loads` library call is treated as an opaque parameter
`parse : Str → Option Json` (`none` models `json.JSONDecodeError`).
A conversation file is `Option Str`: `none` models a path for which
`Path.exists()` is false. -/

inductive PyErr where
  | fileNotFound
  | attributeError
  | typeError
  | keyError
  | indexError
deriving DecidableEq

/-- `ToolCall` named tuple. -/
structure ToolCall where
  tool_name : Str
  input_data : Json
  playwright_code : Str
  description : Str

def toolMarker : Str := lit "#### Tool:"
def todoMarker : Str := lit "#### Tool: TodoWrite"
def toolNamePre : Str := lit "#### Tool: "
def inputPre : Str := lit "**Input:**\n\n```json\n"
def nlFence : Str := lit "\n```"
def playPre : Str := lit "### Ran Playwright code\n```js\n"
def respPre : Str := lit "### Claude's Response\n\n"
def respPost : Str := lit "\n#### Tool:"
def fence : Str := lit "```"
def fenceJson : Str := lit "```json"

/-- One `"#### Tool:"`-delimited section: from marker `i` to marker
`i+1` (or end of text). -/
def extractSection (text : Str) (positions : List Nat) (i : Nat) : Str :=
  let pos := (positions.get? i).getD 0
  let e := (positions.get? (i + 1)).getD text.length
  pySlice text pos e

/-- The description text preceding section `i`
(`extract_tool_calls`, lines 104–123). -/
def descriptionAt (text : Str) (positions : List Nat) (i : Nat) : Str :=
  let pos := (positions.get? i).getD 0
  if i = 0 then
    match reSearchLazy respPre respPost (pyTake text pos) with
    | some d => pyStrip d
    | none => []
  else
    let prevPos := (positions.get? (i - 1)).getD 0
    let textBefore := pySlice text prevPos pos
    match pyRFind fence textBefore with
    | some lcb => pyStrip (textBefore.drop (lcb + 3))
    | none => []

/-- The candidate `ToolCall` contributed by section `i`
(`none` when the section is skipped by a `continue`). -/
def sectionToolCall (parse : Str → Option Json) (text : Str)
    (positions : List Nat) (i : Nat) : Option ToolCall :=
  let sec := extractSection text positions i
  match reSearchLine toolNamePre sec with
  | none => none
  | some nm =>
    let tool_name := pyStrip nm
    match reSearchLazy inputPre nlFence sec with
    | none => none
    | some ij =>
      let input_json := pyStrip ij
      match reSearchLazy playPre nlFence sec with
      | none => none
      | some pc =>
        let playwright_code := pyStrip pc
        let description := descriptionAt text positions i
        match parse input_json with
        | some input_data => some ⟨tool_name, input_data, playwright_code, description⟩
        | none => none

/-- `PlaywrightCodeExtractor.extract_tool_calls` on the file's text. -/
def extract_tool_calls_text (parse : Str → Option Json) (text : Str) : List ToolCall :=
  let positions := findIter toolMarker text
  (List.range positions.length).filterMap (sectionToolCall parse text positions)

/-- The section from the last `TodoWrite` marker to the next tool marker
(searched from `lastPos + 20`) or the end of the file. -/
def todoSectionText (text : Str) (lastPos : Nat) : Str :=
  match pyFindFrom toolMarker text (lastPos + 20) with
  | none => text.drop lastPos
  | some q => pySlice text lastPos q

/-- The JSON text of the first fenced `json` block of a section:
content between ```` ```json ```` and the next ```` ``` ````, with the
first and last line removed and the rest stripped. -/
def firstJsonBlock (sectionText : Str) : Option Str :=
  match pyFind fenceJson sectionText with
  | none => none
  | some js =>
    match pyFindFrom fence sectionText (js + 1) with
    | none => none
    | some je =>
      let json_content := pySlice sectionText js (je + 3)
      let json_lines := splitNl json_content
      some (pyStrip (joinNl ((json_lines.drop 1).dropLast)))

/-- `PlaywrightCodeExtractor.extract_last_todo_list` on the file's text. -/
def extract_last_todo_list_text (parse : Str → Option Json) (text : Str) : Option Json :=
  match pyRFind todoMarker text with
  | none => none
  | some lastPos =>
    match firstJsonBlock (todoSectionText text lastPos) with
    | none => none
    | some jd => parse jd

/-- Python `v[-1]` on a JSON-shaped value. -/
def pyLastIndex : Json → Except PyErr Json
  | .arr es =>
    match es.getLast? with
    | some e => .ok e
    | none => .error .indexError
  | .str s =>
    match s.getLast? with
    | some c => .ok (.str [c])
    | none => .error .indexError
  | .obj _ => .error .keyError
  | _ => .error .typeError

/-- `PlaywrightCodeExtractor.extract_last_todo` on the file's text:
`if full_todo_list and full_todo_list.get("todos"): return
full_todo_list["todos"][-1]`, with Python's dynamic errors made
explicit. -/
def extract_last_todo_text (parse : Str → Option Json) (text : Str) :
    Except PyErr (Option Json) :=
  match extract_last_todo_list_text parse text with
  | none => .ok none
  | some j =>
    if truthy j then
      match j with
      | .obj kvs =>
        match dictGet kvs (lit "todos") with
        | none => .ok none
        | some v => if truthy v then (pyLastIndex v).map some else .ok none
      | _ => .error .attributeError
    else .ok none

/-- `extract_tool_calls` with the `conversation_path.exists()` check. -/
def extract_tool_calls (parse : Str → Option Json) (file : Option Str) :
    Except PyErr (List ToolCall) :=
  match file with
  | none => .error .fileNotFound
  | some text => .ok (extract_tool_calls_text parse text)

/-- `extract_last_todo_list` with the `conversation_path.exists()` check. -/
def extract_last_todo_list (parse : Str → Option Json) (file : Option Str) :
    Except PyErr (Option Json) :=
  match file with
  | none => .error .fileNotFound
  | some text => .ok (extract_last_todo_list_text parse text)

/-- `extract_last_todo` (the existence check happens inside the
`extract_last_todo_list` call it makes). -/
def extract_last_todo (parse : Str → Option Json) (file : Option Str) :
    Except PyErr (Option Json) :=
  match file with
  | none => .error .fileNotFound
  | some text => extract_last_todo_text parse text

/-! ## Test-execution adapter (`cypress_executor.py`)

The subprocess invocation is the external boundary: `runPost` is
`SubprocessExecutor.run` as a function of the subprocess outcome
(`success` = exit code zero, `output` = stdout + stderr). -/

def ariaMarker : Str := lit "ARIA SNAPSHOT (Accessibility Tree)"

/-- `separator = "=" * 80`. -/
def sepLine : Str := List.replicate 80 '='

lemma pyFindFrom_ge {pat s : Str} {start i : Nat}
    (h : pyFindFrom pat s start = some i) : start ≤ i := by
  unfold pyFindFrom at h
  rcases Option.map_eq_some'.mp h with ⟨q, _, rfl⟩
  omega

/-- The `while` loop of `_extract_aria_snapshot` skipping separator
lines, followed by the slice up to the next separator (or end). -/
def ariaLoop (output : Str) (cs : Nat) : Option Str :=
  if cs < output.length ∧ pySlice output cs (cs + 80) = sepLine then
    match hnl : pyFindFrom ['\n'] output cs with
    | none => none
    | some nl => ariaLoop output (nl + 1)
  else
    let snapshot :=
      match pyFindFrom sepLine output cs with
      | none => pyStrip (output.drop cs)
      | some e => pyStrip (pySlice output cs e)
    if snapshot = [] then none else some snapshot
  termination_by output.length - cs
  decreasing_by
    have := pyFindFrom_ge hnl
    omega

/-- `SubprocessExecutor._extract_aria_snapshot`. -/
def extract_aria_snapshot (output : Str) : Option Str :=
  match pyFind ariaMarker output with
  | none => none
  | some start_idx =>
    match pyFindFrom ['\n'] output start_idx with
    | none => none
    | some mle => ariaLoop output (mle + 1)

/-- The labelled-section header appended before the snapshot. -/
def ariaHeader : Str :=
  lit "\n\n" ++ sepLine ++ lit "\n" ++
    lit "CYPRESS ARIA SNAPSHOT (Extracted from Test Output)\n" ++ sepLine ++ lit "\n"

/-- The fixed truncation notice. -/
def ariaNotice : Str := lit "\n... (truncated, showing last 30000 characters)"

/-- The closing divider of the labelled section. -/
def ariaFooter : Str := lit "\n" ++ sepLine ++ lit "\n"

/-- `SubprocessExecutor.run`, as a function of the subprocess result. -/
def runPost (success : Bool) (output : Str) : Bool × Str :=
  if success then (success, output)
  else
    match extract_aria_snapshot output with
    | none => (success, output)
    | some aria =>
      let snapshot_display := if aria.length > 30000 then pyLast aria 30000 else aria
      let out1 := output ++ ariaHeader ++ snapshot_display
      let out2 := if aria.length > 30000 then out1 ++ ariaNotice else out1
      (success, out2 ++ ariaFooter)

/-- Region of 30001 characters used to exercise the truncation bound. -/
def bigRegion : Str := List.replicate 30001 'a'

/-- Failing output: the ARIA marker line followed by `bigRegion`. -/
def bigOutput : Str := ariaMarker ++ '\n' :: bigRegion

/-! ## Conversation data model (claude_agent_sdk message/block shapes) -/

inductive Block where
  | text (t : Str)
  | toolUse (id name : Str) (input : Json)
  | toolResult (tool_use_id : Str) (content : Json) (is_error : Option Bool)
  | other

inductive Message where
  | assistant (content : List Block)
  | user (content : List Block)
  | other

/-- One entry of `conversation_history` (the per-attempt dict built by
`run_all_attempts`; `test_result` is the key set after the test runs). -/
structure Entry where
  step : Str
  user_prompt : Str
  messages : List Message
  tool_outputs : List (Str × Json)
  test_result : Option (Bool × Str)

/-! ## Repair loop (`coding_agent.py`, `CodingAgentFixRunner.run_all_attempts`)

The Claude session is the external boundary: `session k` is the pair
(messages received, tool outputs collected) for attempt `k`; the test
adapter is `executor k`, the result of its `k`-th call. Python's dynamic
errors (reading `conversation_history[-1]["test_result"]`) are made
explicit in the `Except` result. -/

/-- `CodingAgentFixRunner._build_retry_prompt`. -/
def buildRetryPrompt (attempt : Nat) (previous_test_output : Str) : Str :=
  let snippet :=
    if previous_test_output.length > 10000 then pyLast previous_test_output 10000
    else previous_test_output
  lit "\n上一次的修復沒有成功，測試仍然失敗了。\n\n**測試執行輸出 (Attempt " ++
    natStr (attempt - 1) ++ lit "):**\n\n```\n" ++ snippet ++
    lit "\n```\n\n請分析這個錯誤輸出，找出問題所在並繼續修復代碼。\n請特別注意：\n1. 錯誤訊息中的具體問題\n2. 失敗的步驟和行號\n3. 找不到的元素或選擇器問題\n4. 時序或非同步問題\n\n請基於你之前的修復嘗試和這次的錯誤輸出，調整你的修復策略。\n"

/-- `conversation_history[-1]["test_result"] = (success, output)`. -/
def updateLastTestResult : List Entry → Bool × Str → List Entry
  | [], _ => []
  | [e], r => [{ e with test_result := some r }]
  | e :: e' :: rest, r => e :: updateLastTestResult (e' :: rest) r

/-- The `for attempt in range(1, max_retries + 1)` loop body of
`run_all_attempts`; `remaining` counts the iterations left. -/
def runLoop (initialPrompt : Str) (session : Nat → List Message × List (Str × Json))
    (executor : Nat → Bool × Str) :
    Nat → Nat → List Entry → Except PyErr (List Entry)
  | 0, _, hist => .ok hist
  | r + 1, attempt, hist =>
    let promptRes : Except PyErr Str :=
      if attempt = 1 then .ok initialPrompt
      else
        match hist.getLast? with
        | none => .error .indexError
        | some e =>
          match e.test_result with
          | none => .error .keyError
          | some (_, prev_output) => .ok (buildRetryPrompt attempt prev_output)
    match promptRes with
    | .error err => .error err
    | .ok user_prompt =>
      let (messages, tool_outputs) := session attempt
      let entry : Entry :=
        ⟨lit "Fix Attempt " ++ natStr attempt, user_prompt, messages, tool_outputs, none⟩
      let hist1 := hist ++ [entry]
      let (test_success, test_output) := executor attempt
      let hist2 := updateLastTestResult hist1 (test_success, test_output)
      if test_success then .ok hist2
      else runLoop initialPrompt session executor r (attempt + 1) hist2

/-- `CodingAgentFixRunner.run_all_attempts`. -/
def run_all_attempts (max_retries : Nat) (initialPrompt : Str)
    (session : Nat → List Message × List (Str × Json))
    (executor : Nat → Bool × Str) : Except PyErr (List Entry) :=
  runLoop initialPrompt session executor max_retries 1 []

/-! ## Transcript formatter (`conversation_formatter.py`)

`datetime.now()` is the parameter `now`. The rendered document is the
`"\n".join` of the accumulated `lines`; a `none` result models the
`TypeError` that `join` raises if a non-string was appended (only
possible for a tool result whose first item carries a non-string
`text` field). `tool_use_map` is modelled as an association list with
latest-binding lookup, observationally Python's dict under
`__setitem__`/`get`. -/

structure FormatterCfg where
  log_title : Str
  test_file_path : Str
  include_test_results : Bool

def dictSet (m : List (Str × Str)) (k v : Str) : List (Str × Str) := (k, v) :: m

def dictGetStr (m : List (Str × Str)) (k : Str) : Option Str :=
  (m.find? (fun kv => kv.1 == k)).map (·.2)

/-- The resolved display name for a tool id (`"Unknown"` when the id is
not in `tool_use_map`). -/
def resolveName (m : List (Str × Str)) (tid : Str) : Str :=
  (dictGetStr m tid).getD (lit "Unknown")

/-- Lines appended for one `ToolResultBlock`. -/
def toolResultLines (m : List (Str × Str)) (tid : Str) (content : Json) :
    Option (List Str) :=
  let head := lit "**Output (" ++ resolveName m tid ++ lit "):**"
  match content with
  | .arr (first :: rest) =>
    match first with
    | .obj kvs =>
      match dictGet kvs (lit "text") with
      | some (.str t) => some [head, [], fence, t, fence, []]
      | some _ => none
      | none =>
        some [head, [], fenceJson, format_tool_output (.arr (first :: rest)), fence, []]
    | _ => some [head, [], fenceJson, format_tool_output (.arr (first :: rest)), fence, []]
  | _ => some [head, [], fenceJson, format_tool_output content, fence, []]

/-- Lines appended for one `ToolUseBlock`. -/
def toolUseLines (name : Str) (input : Json) : List Str :=
  [lit "#### Tool: " ++ name, [], lit "**Input:**", [], fenceJson,
    format_tool_output input, fence, []]

/-- Processing one block of an `AssistantMessage`: appended lines plus
the `tool_use_map` update. -/
def assistantStep (acc : List Str × List (Str × Str)) (b : Block) :
    List Str × List (Str × Str) :=
  match b with
  | .text t => (acc.1 ++ [t, []], acc.2)
  | .toolUse id name input => (acc.1 ++ toolUseLines name input, dictSet acc.2 id name)
  | _ => acc

/-- Processing one block of a `UserMessage` (the map is read, not
written). -/
def userStep (m : List (Str × Str)) (acc : Option (List Str)) (b : Block) :
    Option (List Str) :=
  match acc with
  | none => none
  | some lines =>
    match b with
    | .toolResult tid content _ =>
      match toolResultLines m tid content with
      | none => none
      | some ls => some (lines ++ ls)
    | _ => some lines

/-- The per-record message loop: lines rendered and the final
`tool_use_map`. -/
def processMessages (m : List (Str × Str)) :
    List Message → Option (List Str × List (Str × Str))
  | [] => some ([], m)
  | msg :: ms =>
    match msg with
    | .assistant blocks =>
      let (ls, m') := blocks.foldl assistantStep ([], m)
      match processMessages m' ms with
      | some (rest, mfin) => some (ls ++ rest, mfin)
      | none => none
    | .user blocks =>
      match blocks.foldl (userStep m) (some []) with
      | none => none
      | some ls =>
        match processMessages m ms with
        | some (rest, mfin) => some (ls ++ rest, mfin)
        | none => none
    | .other => processMessages m ms

/-- One record of the trailing "Tool Outputs Summary" section. -/
def summaryItemLines (m : List (Str × Str)) (kv : Str × Json) : List Str :=
  [lit "**" ++ resolveName m kv.1 ++ lit " (" ++ kv.1 ++ lit "):**", [],
    fenceJson, format_tool_output kv.2, fence, []]

/-- The trailing "Tool Outputs Summary" section of one record. -/
def summaryLines (m : List (Str × Str)) (tool_outputs : List (Str × Json)) : List Str :=
  [lit "### Tool Outputs Summary", []] ++ tool_outputs.flatMap (summaryItemLines m)

def statusStr (success : Bool) : Str :=
  if success then lit "✅ Success" else lit "❌ Failed"

/-- The test-execution-result block of one record. -/
def testResultBlock (success : Bool) (output : Str) : List Str :=
  [lit "### Test Execution Result: " ++ statusStr success, [], fence] ++
    (if output.length > 5000 then [pyTake output 5000, lit "\n... (truncated)"]
     else [output]) ++ [fence, []]

/-- All lines of one conversation-history record. -/
def entryLines (cfg : FormatterCfg) (show_tool_summary : Bool) (entry : Entry) :
    Option (List Str) :=
  let head := [lit "## " ++ entry.step, []]
  let promptLines :=
    if entry.user_prompt ≠ [] then
      [lit "### User Prompt", [], fence, entry.user_prompt, fence, []]
    else []
  let trLines :=
    match entry.test_result with
    | some (s, o) => if cfg.include_test_results then testResultBlock s o else []
    | none => []
  match processMessages [] entry.messages with
  | none => none
  | some (msgLines, m) =>
    let summary :=
      if show_tool_summary && !entry.tool_outputs.isEmpty then
        summaryLines m entry.tool_outputs
      else []
    some (head ++ promptLines ++ trLines ++ [lit "### Claude's Response", []] ++
      msgLines ++ summary ++ [lit "---", []])

/-- The document-header lines. -/
def headerLines (cfg : FormatterCfg) (now : Str) : List Str :=
  [lit "# " ++ cfg.log_title, [], lit "**Generated:** " ++ now,
    lit "**Test File:** " ++ cfg.test_file_path, [], lit "---", []]

/-- The concatenated per-record lines of the whole history. -/
def entryLinesAll (cfg : FormatterCfg) (show_tool_summary : Bool) :
    List Entry → Option (List Str)
  | [] => some []
  | e :: rest =>
    match entryLines cfg show_tool_summary e, entryLinesAll cfg show_tool_summary rest with
    | some ls, some rs => some (ls ++ rs)
    | _, _ => none

/-- `ConversationFormatter.format_conversation`, before the final
`"\n".join`. -/
def formatConversationLines (cfg : FormatterCfg) (now : Str) (history : List Entry)
    (show_tool_summary : Bool) : Option (List Str) :=
  (entryLinesAll cfg show_tool_summary history).map
    (fun ls => headerLines cfg now ++ ls)

/-- `ConversationFormatter.format_conversation`. -/
def format_conversation (cfg : FormatterCfg) (now : Str) (history : List Entry)
    (show_tool_summary : Bool) : Option Str :=
  (formatConversationLines cfg now history show_tool_summary).map joinNl

/-! ## Spec-side auxiliary definitions -/

/-- Index of the adapter's first successful call in `1..N`, or `N` when
none succeeds: the number of attempts the repair loop makes. -/
def attemptsTaken (executor : Nat → Bool × Str) (N : Nat) : Nat :=
  match (List.range N).find? (fun i => (executor (1 + i)).1) with
  | some i => i + 1
  | none => N

/-- Number of further iterations the loop performs starting at `attempt`
with `r` iterations left. -/
def stopCount (executor : Nat → Bool × Str) (attempt r : Nat) : Nat :=
  match (List.range r).find? (fun i => (executor (attempt + i)).1) with
  | some i => i + 1
  | none => r

/-- The history entry the loop records for attempt `k`. -/
def expectedEntry (initialPrompt : Str) (session : Nat → List Message × List (Str × Json))
    (executor : Nat → Bool × Str) (k : Nat) : Entry :=
  ⟨lit "Fix Attempt " ++ natStr k,
    (if k = 1 then initialPrompt else buildRetryPrompt k (executor (k - 1)).2),
    (session k).1, (session k).2, some (executor k)⟩

/-- The history after `K` completed attempts. -/
def expectedHist (initialPrompt : Str) (session : Nat → List Message × List (Str × Json))
    (executor : Nat → Bool × Str) (K : Nat) : List Entry :=
  (List.range K).map (fun j => expectedEntry initialPrompt session executor (j + 1))

/-- A session that returns no messages and no tool outputs. -/
def session0 : Nat → List Message × List (Str × Json) := fun _ => ([], [])

/-- Adapter results `(false,"err1")`, `(false,"err2")`, then `(true,"ok")`. -/
def exThree : Nat → Bool × Str := fun k =>
  if k = 1 then (false, lit "err1")
  else if k = 2 then (false, lit "err2")
  else (true, lit "ok")

/-- An adapter that always fails. -/
def exFailAll : Nat → Bool × Str := fun _ => (false, lit "err")

/-- A parse stub recognising only the empty JSON object. -/
def parse0 : Str → Option Json := fun s =>
  if s = lit "{}" then some (.obj []) else none

/-- Document with checklist markers at offsets 0 and 23 and a trailing
tool marker: exercises rightmost-marker selection. -/
def wdoc : Str :=
  lit "#### Tool: TodoWrite\nx\n#### Tool: TodoWrite\n\n```json\n{}\n```\n#### Tool: other\n"

/-- Document whose only checklist section has no fenced JSON block. -/
def text7 : Str := lit "#### Tool: TodoWrite\nno json block here\n"

/-- Document whose only tool section has an input payload but no
recognizable Playwright code/output artifact. -/
def cdoc4 : Str :=
  lit "#### Tool: browser_click\n\n**Input:**\n\n```json\n{}\n```\n\n**Output (browser_click):**\n\n```json\nnull\n```\n"

/-- A 5001-character test output, exceeding the 5000-character budget. -/
def bigOut5 : Str := List.replicate 5001 'x'

/-- A history entry whose test result output exceeds the budget. -/
def entry8 : Entry := ⟨lit "Fix Attempt 1", [], [], [], some (true, bigOut5)⟩

/-- Formatter configuration with test-result inclusion enabled. -/
def cfg8 : FormatterCfg := ⟨lit "Log", lit "f.cy.js", true⟩

/-- The `tool_use_map` updates contributed by one assistant message's
blocks. -/
def blocksMap (m : List (Str × Str)) : List Block → List (Str × Str)
  | [] => m
  | .toolUse id name _ :: bs => blocksMap (dictSet m id name) bs
  | _ :: bs => blocksMap m bs

/-- The `tool_use_map` state after processing a message prefix. -/
def mapOf (m : List (Str × Str)) : List Message → List (Str × Str)
  | [] => m
  | .assistant blocks :: ms => mapOf (blocksMap m blocks) ms
  | _ :: ms => mapOf m ms

/-- A record whose tool result precedes the only matching invocation. -/
def blocks10 : List Block := [.toolResult (lit "tid1") (.str (lit "out")) none]

/-- Messages where the result at index 0 precedes the invocation with
the same id at index 1. -/
def msgs10 : List Message :=
  [.user blocks10, .assistant [.toolUse (lit "tid1") (lit "T") .null]]

/-- Reference form of the greatest occurrence offset of `pat` in `s`. -/
def lastRel (pat : Str) : Str → Option Nat
  | [] => if pat.isPrefixOf [] then some 0 else none
  | c :: t =>
    match lastRel pat t with
    | some j => some (j + 1)
    | none => if pat.isPrefixOf (c :: t) then some 0 else none

/-! ## Canonical structured histories for the round-trip property

A canonical record keeps each tool invocation in the shape the agent
session produces: an assistant `ToolUseBlock`, optionally followed by a
user message carrying its `ToolResultBlock`; free text stands in
assistant messages of its own. `toEntry` renders such a record as the
`conversation_history` entry the formatter receives. -/

structure SInv where
  tid : Str
  name : Str
  input : Json
  result : Option (Json × Option Bool)

inductive SItem where
  | say (t : Str)
  | call (inv : SInv)

structure SRecord where
  step : Str
  prompt : Str
  testResult : Option (Bool × Str)
  outputs : List (Str × Json)
  items : List SItem

/-- The messages of one canonical item. -/
def itemMessages : SItem → List Message
  | .say t => [.assistant [.text t]]
  | .call inv =>
    .assistant [.toolUse inv.tid inv.name inv.input] ::
      (match inv.result with
       | none => []
       | some (c, ie) => [.user [.toolResult inv.tid c ie]])

/-- The `conversation_history` entry of one canonical record. -/
def toEntry (r : SRecord) : Entry :=
  ⟨r.step, r.prompt, r.items.flatMap itemMessages, r.outputs, r.testResult⟩

/-- The tool invocations of one record, in order. -/
def recordInvs (r : SRecord) : List SInv :=
  r.items.filterMap (fun it => match it with | .call inv => some inv | .say _ => none)

/-- All tool invocations of a history, in order. -/
def allInvs (hist : List SRecord) : List SInv := hist.flatMap recordInvs

/-- The string rendered inside a plain fenced block for a result
content whose first item is a dict with a string `text` field. -/
def resTextC : Json → Option Str
  | .arr (.obj kvs :: _) =>
    match dictGet kvs (lit "text") with
    | some (.str t) => some t
    | _ => none
  | _ => none

/-- The Extractor's Playwright search applied to a rendered result text
(the formatter closes the fenced block with a newline and a fence). -/
def artifactCode (t : Str) : Option Str := reSearchLazy playPre nlFence (t ++ nlFence)

/-- Whether an invocation's rendered result carries a recognizable
Playwright code artifact. -/
def hasArtifact (inv : SInv) : Bool :=
  match inv.result with
  | some (c, _) =>
    match resTextC c with
    | some t => (artifactCode t).isSome
    | none => false
  | none => false

/-- One line followed by its terminating newline. -/
def lineStr (l : Str) : Str := l ++ ['\n']

/-- All lines, each with its newline: `"\n".join` of the lines followed
by one empty line. -/
def flatLines (L : List Str) : Str := L.flatMap lineStr

/-- The lines of one rendered tool result under a resolved name. -/
def resultLines (nm : Str) (c : Json) : List Str :=
  [lit "**Output (" ++ nm ++ lit "):**", []] ++
    (match resTextC c with
     | some t => [fence, t, fence, []]
     | none => [fenceJson, format_tool_output c, fence, []])

/-- Lines rendered for one canonical item (the result's name resolves to
the invocation's own name, bound immediately before it). -/
def itemLines : SItem → List Str
  | .say t => [t, []]
  | .call inv =>
    toolUseLines inv.name inv.input ++
      (match inv.result with
       | none => []
       | some (c, _) => resultLines inv.name c)

/-- The `tool_use_map` updates of a list of canonical items. -/
def recMapFrom (m : List (Str × Str)) : List SItem → List (Str × Str)
  | [] => m
  | .say _ :: its => recMapFrom m its
  | .call inv :: its => recMapFrom (dictSet m inv.tid inv.name) its

/-- The prelude lines of one record. -/
def recPreLines (cfg : FormatterCfg) (r : SRecord) : List Str :=
  [lit "## " ++ r.step, []] ++
    (if r.prompt ≠ [] then [lit "### User Prompt", [], fence, r.prompt, fence, []]
     else []) ++
    (match r.testResult with
     | some (s, o) => if cfg.include_test_results then testResultBlock s o else []
     | none => []) ++
    [lit "### Claude's Response", []]

/-- The epilogue lines of one record. -/
def recPostLines (sts : Bool) (r : SRecord) : List Str :=
  (if sts && !r.outputs.isEmpty then summaryLines (recMapFrom [] r.items) r.outputs
   else []) ++ [lit "---", []]

/-- All lines of one record. -/
def recLines (cfg : FormatterCfg) (sts : Bool) (r : SRecord) : List Str :=
  recPreLines cfg r ++ r.items.flatMap itemLines ++ recPostLines sts r

/-- One atomic chunk of the rendered document: plain text, or the
`"#### Tool:"` marker opening an invocation's section. -/
inductive Ev where
  | plain (s : Str)
  | head (inv : SInv)

def evStr : Ev → Str
  | .plain s => s
  | .head _ => toolMarker

/-- The rendered document as the concatenation of its chunks. -/
def flatEvents (evs : List Ev) : Str := evs.flatMap evStr

/-- The rendered section text of an invocation after its marker. -/
def callChunk (inv : SInv) : Str :=
  (lit " " ++ inv.name ++ ['\n']) ++ lineStr [] ++ lineStr (lit "**Input:**") ++
    lineStr [] ++ lineStr fenceJson ++ lineStr (format_tool_output inv.input) ++
    lineStr fence ++ lineStr [] ++
    (match inv.result with
     | none => []
     | some (c, _) =>
       lineStr (lit "**Output (" ++ inv.name ++ lit "):**") ++ lineStr [] ++
         (match resTextC c with
          | some t => lineStr fence ++ lineStr t ++ lineStr fence ++ lineStr []
          | none => lineStr fenceJson ++ lineStr (format_tool_output c) ++
              lineStr fence ++ lineStr []))

/-- The events of one canonical item. -/
def itemEvents : SItem → List Ev
  | .say t => [.plain (lineStr t ++ lineStr [])]
  | .call inv => [.head inv, .plain (callChunk inv)]

/-- The events of one record. -/
def recordEvents (cfg : FormatterCfg) (sts : Bool) (r : SRecord) : List Ev :=
  .plain (flatLines (recPreLines cfg r)) ::
    (r.items.flatMap itemEvents ++ [.plain (flatLines (recPostLines sts r))])

/-- The event stream of the whole document. -/
def histEvents (cfg : FormatterCfg) (now : Str) (sts : Bool)
    (hist : List SRecord) : List Ev :=
  .plain (flatLines (headerLines cfg now)) :: hist.flatMap (recordEvents cfg sts)

/-- Split an event stream into the text before the first marker and the
per-invocation section bodies. -/
def groupEvents : List Ev → Str × List (SInv × Str)
  | [] => ([], [])
  | .plain s :: rest =>
    let pg := groupEvents rest
    (s ++ pg.1, pg.2)
  | .head inv :: rest =>
    let pg := groupEvents rest
    ([], (inv, pg.1) :: pg.2)

/-- Append text to the last section body. -/
def appendLastBody : List (SInv × Str) → Str → List (SInv × Str)
  | [], _ => []
  | [(inv, b)], q => [(inv, b ++ q)]
  | g :: g' :: gs, q => g :: appendLastBody (g' :: gs) q

/-- Drop the final character of the last section body. -/
def trimLast : List (SInv × Str) → List (SInv × Str)
  | [] => []
  | [(inv, b)] => [(inv, b.dropLast)]
  | g :: g' :: gs => g :: trimLast (g' :: gs)

/-- The flat text of a list of sections. -/
def secsStr (gs : List (SInv × Str)) : Str := gs.flatMap (fun g => toolMarker ++ g.2)

/-- Marker offsets of the sections of `gs` in a document that opens with
`p` characters of section-free text. -/
def positionsFrom (p : Nat) : List (SInv × Str) → List Nat
  | [] => []
  | g :: gs => p :: positionsFrom (p + toolMarker.length + g.2.length) gs

/-- Combine the groupings of two consecutive event streams. -/
def groupsCat (x y : Str × List (SInv × Str)) : Str × List (SInv × Str) :=
  match x, y with
  | (p, []), (p', gs') => (p ++ p', gs')
  | (p, g :: gs), (p', gs') => (p, appendLastBody (g :: gs) p' ++ gs')

/-- The invocations of a list of canonical items. -/
def itemsInvs (items : List SItem) : List SInv :=
  items.filterMap (fun it => match it with | .call inv => some inv | .say _ => none)

/-- Every section body extends the rendered block of its invocation. -/
def goodGroups (gs : List (SInv × Str)) : Prop :=
  ∀ g ∈ gs, ∃ q, g.2 = callChunk g.1 ++ q

/-- The rendered section text of an artifact-bearing invocation up to
(and including) the fence opening its result text. -/
def headOf (inv : SInv) : Str :=
  toolMarker ++ (lit " " ++ inv.name ++ ['\n']) ++ lineStr [] ++
    lineStr (lit "**Input:**") ++ lineStr [] ++ lineStr fenceJson ++
    lineStr (format_tool_output inv.input) ++ lineStr fence ++ lineStr [] ++
    lineStr (lit "**Output (" ++ inv.name ++ lit "):**") ++ lineStr [] ++ lineStr fence

def isStrB : Json → Bool
  | .str _ => true
  | _ => false

/-- Result contents the formatter renders without a `TypeError`. -/
def contentOK : Json → Bool
  | .arr (.obj kvs :: _) =>
    match dictGet kvs (lit "text") with
    | some v => isStrB v
    | none => true
  | _ => true

/-- The formatter renders the invocation's result without a
`TypeError`. -/
def resultOK (inv : SInv) : Prop :=
  match inv.result with
  | some (c, _) => contentOK c = true
  | none => True

/-- Well-formedness of one invocation: a nonempty stripped name free of
newlines and asterisks, a rendered input that strips to itself, contains
no closing fence, and parses back to the input, and a renderable
result. -/
def invWF (parse : Str → Option Json) (inv : SInv) : Prop :=
  inv.name ≠ [] ∧ (∀ c ∈ inv.name, c ≠ '\n' ∧ c ≠ '*') ∧
    pyStrip inv.name = inv.name ∧
    ¬ nlFence <:+: format_tool_output inv.input ∧
    pyStrip (format_tool_output inv.input) = format_tool_output inv.input ∧
    parse (format_tool_output inv.input) = some inv.input ∧
    resultOK inv

/-- Injection-freedom of a rendered history: every invocation is
well-formed, no stray `"#### Tool:"` marker occurs anywhere outside the
section headings, and the Playwright header occurs only inside the
rendered result text of an artifact-bearing section. -/
def histWF (cfg : FormatterCfg) (now : Str) (parse : Str → Option Json)
    (hist : List SRecord) : Prop :=
  (∀ inv ∈ allInvs hist, invWF parse inv) ∧
    ¬ toolMarker <:+: (groupEvents (histEvents cfg now true hist)).1 ∧
    ∀ g ∈ (groupEvents (histEvents cfg now true hist)).2,
      ¬ toolMarker <:+: g.2 ∧
        (hasArtifact g.1 = false → ¬ playPre <:+: (toolMarker ++ g.2))

/-- The `(tool_name, input_data)` contribution of one section. -/
def secOut (parse : Str → Option Json) (sec : Str) : List (Str × Json) :=
  match reSearchLine toolNamePre sec with
  | none => []
  | some nm =>
    match reSearchLazy inputPre nlFence sec with
    | none => []
    | some ij =>
      match reSearchLazy playPre nlFence sec with
      | none => []
      | some _ =>
        match parse (pyStrip ij) with
        | some input_data => [(pyStrip nm, input_data)]
        | none => []

/-- A text block whose content renders exactly like a tool section with
an input payload and a Playwright artifact. -/
def evilText : Str :=
  lit "#### Tool: Evil\n\n**Input:**\n\n```json\n{}\n```\n\n**Output (Evil):**\n\n```\n### Ran Playwright code\n```js\nfake()\n```\n```"

/-- A history with a single text-only response and no tool invocation. -/
def histC1 : List Entry :=
  [⟨lit "Fix Attempt 1", [], [.assistant [.text evilText]], [], none⟩]

/-- The document the formatter renders for `histC1`. -/
def docC1 : Str :=
  lit "# Log\n\n**Generated:** ts\n**Test File:** f.cy.js\n\n---\n\n## Fix Attempt 1\n\n### Claude's Response\n\n#### Tool: Evil\n\n**Input:**\n\n```json\n{}\n```\n\n**Output (Evil):**\n\n```\n### Ran Playwright code\n```js\nfake()\n```\n```\n\n---\n"

/-- A parse stub recognising the witness input rendering. -/
def parseW : Str → Option Json := fun s =>
  if s = lit "IN" then some (.str (lit "IN")) else none

/-- The witness result text: a complete Playwright artifact. -/
def artW : Str := lit "### Ran Playwright code\n```js\nawait page.click()\n```"

/-- The witness invocation. -/
def invW : SInv :=
  ⟨lit "tid1", lit "browser_click", .str (lit "IN"),
    some (.arr [.obj [(lit "text", .str artW)]], none)⟩

/-- The witness record: one text turn and one artifact-bearing
invocation. -/
def recW : SRecord :=
  ⟨lit "Fix Attempt 1", lit "p", none, [], [.say (lit "hello"), .call invW]⟩

/-- The witness canonical history. -/
def histW : List SRecord := [recW]

/-! ## Occurrence lemmas for the scanning primitives -/

lemma occ_le_length {pat s : Str} {j : Nat} (hpat : pat ≠ []) (h : pat <+: s.drop j) :
    j < s.length := by
  by_contra hj
  rw [List.drop_eq_nil_of_le (by omega)] at h
  exact hpat (List.prefix_nil.mp h)

lemma occ_iff_infix {pat s : Str} : (∃ j, pat <+: s.drop j) ↔ pat <:+: s := by
  constructor
  · rintro ⟨j, h⟩
    exact h.isInfix.trans (List.drop_suffix j s).isInfix
  · rintro ⟨u, v, rfl⟩
    exact ⟨u.length, by simp [List.drop_left' rfl, List.prefix_append]⟩

lemma firstOccAux_shift (pat : Str) : ∀ (s : Str) (acc : Nat),
    firstOccAux pat s acc = (firstOccAux pat s 0).map (· + acc) := by
  intro s
  induction s with
  | nil =>
    intro acc
    unfold firstOccAux
    by_cases h : pat.isPrefixOf []
    · rw [if_pos h, if_pos h]; simp
    · rw [if_neg h, if_neg h]; simp
  | cons c t ih =>
    intro acc
    unfold firstOccAux
    by_cases h : pat.isPrefixOf (c :: t)
    · rw [if_pos h, if_pos h]; simp
    · rw [if_neg h, if_neg h]
      show firstOccAux pat t (acc + 1) =
        Option.map (fun x => x + acc) (firstOccAux pat t (0 + 1))
      rw [ih (acc + 1), ih (0 + 1), Option.map_map]
      congr 1
      funext x
      simp; omega

lemma pyFind_eq_some_iff {pat s : Str} {i : Nat} :
    pyFind pat s = some i ↔ (pat <+: s.drop i ∧ ∀ j, j < i → ¬ pat <+: s.drop j) := by
  induction s generalizing i with
  | nil =>
    unfold pyFind firstOccAux
    by_cases h : pat.isPrefixOf []
    · have hp : pat <+: ([] : Str) := List.isPrefixOf_iff_prefix.mp h
      simp only [h, if_true]
      constructor
      · rintro h0; cases h0
        exact ⟨by simpa using hp, by omega⟩
      · rintro ⟨_, hmin⟩
        by_contra hne
        have hi : 0 < i := by
          cases Nat.eq_zero_or_pos i with
          | inl h0 => exact absurd (congrArg some h0).symm hne
          | inr h0 => exact h0
        exact hmin 0 hi (by simpa using hp)
    · have hp : ¬ pat <+: ([] : Str) := fun hc => h (List.isPrefixOf_iff_prefix.mpr hc)
      simp only [h, if_false]
      constructor
      · intro hc; cases hc
      · rintro ⟨hocc, _⟩
        exact absurd (by simpa using hocc) hp
  | cons c t ih =>
    unfold pyFind firstOccAux
    by_cases h : pat.isPrefixOf (c :: t)
    · have hp : pat <+: (c :: t) := List.isPrefixOf_iff_prefix.mp h
      simp only [h, if_true]
      constructor
      · rintro h0; cases h0
        exact ⟨by simpa using hp, by omega⟩
      · rintro ⟨_, hmin⟩
        by_contra hne
        have hi : 0 < i := by
          cases Nat.eq_zero_or_pos i with
          | inl h0 => exact absurd (congrArg some h0).symm hne
          | inr h0 => exact h0
        exact hmin 0 hi (by simpa using hp)
    · have hp : ¬ pat <+: (c :: t) := fun hc => h (List.isPrefixOf_iff_prefix.mpr hc)
      simp only [h, if_false]
      rw [show firstOccAux pat t 1 = (firstOccAux pat t 0).map (· + 1) from
        firstOccAux_shift pat t 1]
      constructor
      · intro hmap
        rcases Option.map_eq_some'.mp hmap with ⟨i', hfind, rfl⟩
        rcases ih.mp hfind with ⟨hocc, hmin⟩
        refine ⟨by simpa using hocc, ?_⟩
        intro j hj
        cases j with
        | zero => simpa using hp
        | succ j' => simpa using hmin j' (by omega)
      · rintro ⟨hocc, hmin⟩
        cases i with
        | zero => exact absurd (by simpa using hocc) hp
        | succ i' =>
          have : pyFind pat t = some i' :=
            ih.mpr ⟨by simpa using hocc, fun j hj => by simpa using hmin (j + 1) (by omega)⟩
          rw [show firstOccAux pat t 0 = pyFind pat t from rfl, this]
          rfl

lemma pyFind_eq_none_iff {pat s : Str} :
    pyFind pat s = none ↔ ∀ j, ¬ pat <+: s.drop j := by
  constructor
  · intro hnone j hocc
    have hex : ∃ j, pat <+: s.drop j := ⟨j, hocc⟩
    have := Nat.find_spec hex
    have hmin : ∀ j' < Nat.find hex, ¬ pat <+: s.drop j' := fun j' hj' => Nat.find_min hex hj'
    have : pyFind pat s = some (Nat.find hex) := pyFind_eq_some_iff.mpr ⟨this, hmin⟩
    rw [hnone] at this; cases this
  · intro hall
    cases hfind : pyFind pat s with
    | none => rfl
    | some i => exact absurd (pyFind_eq_some_iff.mp hfind).1 (hall i)

lemma pyFind_none_iff_not_infix {pat s : Str} :
    pyFind pat s = none ↔ ¬ pat <:+: s := by
  rw [pyFind_eq_none_iff, ← occ_iff_infix]
  push_neg
  constructor <;> exact fun h j => h j

lemma lastOccAux_eq (pat : Str) : ∀ (s : Str) (acc : Nat) (best : Option Nat),
    lastOccAux pat s acc best =
      match lastRel pat s with
      | some j => some (acc + j)
      | none => best := by
  intro s
  induction s with
  | nil =>
    intro acc best
    unfold lastOccAux lastRel
    by_cases h : pat.isPrefixOf []
    · rw [if_pos h, if_pos h]; simp
    · rw [if_neg h, if_neg h]
  | cons c t ih =>
    intro acc best
    show lastOccAux pat t (acc + 1) (if pat.isPrefixOf (c :: t) then some acc else best) =
      (match lastRel pat (c :: t) with
        | some j => some (acc + j)
        | none => best)
    rw [ih]
    show (match lastRel pat t with
        | some j => some (acc + 1 + j)
        | none => if pat.isPrefixOf (c :: t) then some acc else best) = _
    cases hlt : lastRel pat t with
    | some j =>
      have : lastRel pat (c :: t) = some (j + 1) := by unfold lastRel; rw [hlt]
      rw [this]
      simp; omega
    | none =>
      have : lastRel pat (c :: t) =
          if pat.isPrefixOf (c :: t) then some 0 else none := by
        unfold lastRel; rw [hlt]
      rw [this]
      by_cases h : pat.isPrefixOf (c :: t)
      · rw [if_pos h, if_pos h]; simp
      · rw [if_neg h, if_neg h]

lemma lastRel_some_occ {pat : Str} : ∀ {s : Str} {i : Nat},
    lastRel pat s = some i → pat <+: s.drop i := by
  intro s
  induction s with
  | nil =>
    intro i h
    unfold lastRel at h
    by_cases hp : pat.isPrefixOf []
    · rw [if_pos hp] at h
      cases h
      simpa using List.isPrefixOf_iff_prefix.mp hp
    · rw [if_neg hp] at h; cases h
  | cons c t ih =>
    intro i h
    unfold lastRel at h
    cases hlt : lastRel pat t with
    | some j =>
      rw [hlt] at h
      cases h
      simpa using ih hlt
    | none =>
      rw [hlt] at h
      by_cases hp : pat.isPrefixOf (c :: t)
      · rw [if_pos hp] at h
        cases h
        simpa using List.isPrefixOf_iff_prefix.mp hp
      · rw [if_neg hp] at h; cases h

lemma lastRel_eq_none {pat : Str} (hpat : pat ≠ []) : ∀ {s : Str},
    lastRel pat s = none ↔ ∀ j, ¬ pat <+: s.drop j := by
  intro s
  induction s with
  | nil =>
    unfold lastRel
    have h : ¬ pat.isPrefixOf [] := by
      intro hc
      exact hpat (List.prefix_nil.mp (List.isPrefixOf_iff_prefix.mp hc))
    rw [if_neg h]
    simp only [true_iff]
    intro j hc
    exact h (List.isPrefixOf_iff_prefix.mpr (by simpa using hc))
  | cons c t ih =>
    unfold lastRel
    cases hlt : lastRel pat t with
    | some j =>
      simp only [reduceCtorEq, false_iff]
      push_neg
      exact ⟨j + 1, by simpa using lastRel_some_occ hlt⟩
    | none =>
      by_cases h : pat.isPrefixOf (c :: t)
      · rw [if_pos h]
        simp only [reduceCtorEq, false_iff]
        push_neg
        exact ⟨0, by simpa using List.isPrefixOf_iff_prefix.mp h⟩
      · rw [if_neg h]
        simp only [true_iff]
        intro j hc
        cases j with
        | zero => exact h (List.isPrefixOf_iff_prefix.mpr (by simpa using hc))
        | succ j' => exact (ih.mp hlt) j' (by simpa using hc)

lemma lastRel_eq_some_aux {pat : Str} (hpat : pat ≠ []) : ∀ {s : Str} {i : Nat},
    lastRel pat s = some i →
      (pat <+: s.drop i ∧ ∀ j, pat <+: s.drop j → j ≤ i) := by
  intro s
  induction s with
  | nil =>
    intro i h
    unfold lastRel at h
    have hnp : ¬ pat.isPrefixOf [] := by
      intro hc
      exact hpat (List.prefix_nil.mp (List.isPrefixOf_iff_prefix.mp hc))
    rw [if_neg hnp] at h
    cases h
  | cons c t ih =>
    intro i h
    unfold lastRel at h
    cases hlt : lastRel pat t with
    | some j =>
      rw [hlt] at h
      cases h
      obtain ⟨hocc, hmax⟩ := ih hlt
      refine ⟨by simpa using hocc, ?_⟩
      intro j' hj'
      cases j' with
      | zero => omega
      | succ k => exact Nat.succ_le_succ (hmax k (by simpa using hj'))
    | none =>
      rw [hlt] at h
      by_cases hp : pat.isPrefixOf (c :: t)
      · rw [if_pos hp] at h
        cases h
        refine ⟨by simpa using List.isPrefixOf_iff_prefix.mp hp, ?_⟩
        intro j' hj'
        cases j' with
        | zero => omega
        | succ k =>
          exact absurd (by simpa using hj') ((lastRel_eq_none hpat).mp hlt k)
      · rw [if_neg hp] at h
        cases h

lemma pyRFind_eq_some_iff {pat s : Str} {i : Nat} (hpat : pat ≠ []) :
    pyRFind pat s = some i ↔
      (pat <+: s.drop i ∧ ∀ j, pat <+: s.drop j → j ≤ i) := by
  unfold pyRFind
  rw [lastOccAux_eq]
  constructor
  · intro h
    cases hlt : lastRel pat s with
    | some j =>
      rw [hlt] at h
      simp only [Option.some.injEq] at h
      obtain ⟨hocc, hmax⟩ := lastRel_eq_some_aux hpat hlt
      subst h
      simpa using ⟨hocc, hmax⟩
    | none => rw [hlt] at h; cases h
  · rintro ⟨hocc, hmax⟩
    cases hlt : lastRel pat s with
    | some j =>
      obtain ⟨hocc', hmax'⟩ := lastRel_eq_some_aux hpat hlt
      have : j = i := le_antisymm (hmax j hocc') (hmax' i hocc)
      subst this
      simp
    | none => exact absurd hocc ((lastRel_eq_none hpat).mp hlt i)

lemma pyRFind_eq_none_iff {pat s : Str} (hpat : pat ≠ []) :
    pyRFind pat s = none ↔ ∀ j, ¬ pat <+: s.drop j := by
  unfold pyRFind
  rw [lastOccAux_eq]
  cases hlt : lastRel pat s with
  | some j =>
    simp only [reduceCtorEq, false_iff]
    push_neg
    obtain ⟨hocc, _⟩ := lastRel_eq_some_aux hpat hlt
    exact ⟨j, hocc⟩
  | none =>
    simp only [true_iff]
    exact (lastRel_eq_none hpat).mp hlt

/-! ## Repair-loop lemmas -/

lemma updateLast_append (l : List Entry) (e : Entry) (r : Bool × Str) :
    updateLastTestResult (l ++ [e]) r = l ++ [{ e with test_result := some r }] := by
  induction l with
  | nil => rfl
  | cons a l ih =>
    cases l with
    | nil => rfl
    | cons b l' =>
      show a :: updateLastTestResult ((b :: l') ++ [e]) r = _
      rw [ih]
      rfl

lemma stopCount_zero (ex : Nat → Bool × Str) (a : Nat) : stopCount ex a 0 = 0 := rfl

lemma stopCount_succ_true {ex : Nat → Bool × Str} {a : Nat} (r : Nat)
    (h : (ex a).1 = true) : stopCount ex a (r + 1) = 1 := by
  unfold stopCount
  rw [List.range_succ_eq_map, List.find?_cons_of_pos _ (by simpa using h)]

lemma stopCount_succ_false {ex : Nat → Bool × Str} {a : Nat} (r : Nat)
    (h : (ex a).1 = false) : stopCount ex a (r + 1) = stopCount ex (a + 1) r + 1 := by
  unfold stopCount
  rw [List.range_succ_eq_map, List.find?_cons_of_neg _ (by simp [h]), List.find?_map]
  have : ((fun i => (ex (a + i)).1) ∘ Nat.succ) = fun i => (ex (a + 1 + i)).1 := by
    funext i
    show (ex (a + Nat.succ i)).1 = (ex (a + 1 + i)).1
    congr 2
    omega
  rw [this]
  cases hf : (List.range r).find? (fun i => (ex (a + 1 + i)).1) <;> simp

lemma stopCount_pos {ex : Nat → Bool × Str} {a r : Nat} (h : 1 ≤ r) :
    1 ≤ stopCount ex a r := by
  unfold stopCount
  cases hf : (List.range r).find? (fun i => (ex (a + i)).1) with
  | none => simpa using h
  | some i =>
    show 1 ≤ i + 1
    omega

lemma stopCount_le (ex : Nat → Bool × Str) (a r : Nat) : stopCount ex a r ≤ r := by
  unfold stopCount
  cases hf : (List.range r).find? (fun i => (ex (a + i)).1) with
  | none => simp
  | some i =>
    have hmem : i ∈ List.range r := List.mem_of_find?_eq_some hf
    have := List.mem_range.mp hmem
    show i + 1 ≤ r
    omega

lemma stopCount_spec (ex : Nat → Bool × Str) : ∀ (r a : Nat),
    (∀ i, i + 1 < stopCount ex a r → (ex (a + i)).1 = false) ∧
    ((∃ i, i < r ∧ (ex (a + i)).1 = true) → (ex (a + (stopCount ex a r - 1))).1 = true) := by
  intro r
  induction r with
  | zero =>
    intro a
    rw [stopCount_zero]
    exact ⟨fun i hi => by omega, fun ⟨i, hi, _⟩ => by omega⟩
  | succ r ih =>
    intro a
    cases hfst : (ex a).1 with
    | true =>
      rw [stopCount_succ_true r hfst]
      refine ⟨fun i hi => by omega, fun _ => by simpa using hfst⟩
    | false =>
      rw [stopCount_succ_false r hfst]
      obtain ⟨ih1, ih2⟩ := ih (a + 1)
      constructor
      · intro i hi
        cases i with
        | zero => simpa using hfst
        | succ k =>
          have := ih1 k (by omega)
          simpa [Nat.add_assoc, Nat.add_comm 1 k] using this
      · rintro ⟨i, hi, hsucc⟩
        cases i with
        | zero => rw [Nat.add_zero] at hsucc; rw [hsucc] at hfst; cases hfst
        | succ k =>
          have hk : ∃ i, i < r ∧ (ex (a + 1 + i)).1 = true :=
            ⟨k, by omega, by simpa [Nat.add_assoc, Nat.add_comm 1 k] using hsucc⟩
          have := ih2 hk
          have hpos : 1 ≤ stopCount ex (a + 1) r :=
            stopCount_pos (by omega)
          have harith : a + 1 + (stopCount ex (a + 1) r - 1) =
              a + (stopCount ex (a + 1) r + 1 - 1) := by omega
          rw [harith] at this
          simpa using this

lemma expectedHist_zero (p : Str) (s : Nat → List Message × List (Str × Json))
    (ex : Nat → Bool × Str) : expectedHist p s ex 0 = [] := rfl

lemma expectedHist_succ (p : Str) (s : Nat → List Message × List (Str × Json))
    (ex : Nat → Bool × Str) (K : Nat) :
    expectedHist p s ex (K + 1) = expectedHist p s ex K ++ [expectedEntry p s ex (K + 1)] := by
  unfold expectedHist
  rw [List.range_succ, List.map_append]
  rfl

lemma expectedHist_length (p : Str) (s : Nat → List Message × List (Str × Json))
    (ex : Nat → Bool × Str) (K : Nat) : (expectedHist p s ex K).length = K := by
  unfold expectedHist
  simp

lemma expectedHist_getLast (p : Str) (s : Nat → List Message × List (Str × Json))
    (ex : Nat → Bool × Str) (K : Nat) :
    (expectedHist p s ex (K + 1)).getLast? = some (expectedEntry p s ex (K + 1)) := by
  rw [expectedHist_succ]
  exact List.getLast?_concat _

lemma expectedHist_getElem (p : Str) (s : Nat → List Message × List (Str × Json))
    (ex : Nat → Bool × Str) (K j : Nat) (hj : j < K) :
    (expectedHist p s ex K)[j]? = some (expectedEntry p s ex (j + 1)) := by
  unfold expectedHist
  rw [List.getElem?_map, List.getElem?_range hj]
  rfl

lemma runLoop_ok (p : Str) (s : Nat → List Message × List (Str × Json))
    (ex : Nat → Bool × Str) : ∀ (r b : Nat),
    runLoop p s ex r (b + 1) (expectedHist p s ex b) =
      .ok (expectedHist p s ex (b + stopCount ex (b + 1) r)) := by
  intro r
  induction r with
  | zero =>
    intro b
    rw [stopCount_zero]
    rfl
  | succ r ih =>
    intro b
    have hprompt :
        (if b + 1 = 1 then Except.ok p
         else
           match (expectedHist p s ex b).getLast? with
           | none => Except.error PyErr.indexError
           | some e =>
             match e.test_result with
             | none => Except.error PyErr.keyError
             | some (_, prev_output) =>
               Except.ok (buildRetryPrompt (b + 1) prev_output)) =
          Except.ok (expectedEntry p s ex (b + 1)).user_prompt := by
      cases b with
      | zero => rfl
      | succ k =>
        rw [if_neg (by omega), expectedHist_getLast]
        show Except.ok (buildRetryPrompt (k + 1 + 1) (ex (k + 1)).2) = _
        unfold expectedEntry
        rw [if_neg (by omega)]
        rfl
    show (match (if b + 1 = 1 then Except.ok p
         else
           match (expectedHist p s ex b).getLast? with
           | none => Except.error PyErr.indexError
           | some e =>
             match e.test_result with
             | none => Except.error PyErr.keyError
             | some (_, prev_output) =>
               Except.ok (buildRetryPrompt (b + 1) prev_output)) with
      | .error err => .error err
      | .ok user_prompt =>
        let (messages, tool_outputs) := s (b + 1)
        let entry : Entry :=
          ⟨lit "Fix Attempt " ++ natStr (b + 1), user_prompt, messages, tool_outputs, none⟩
        let hist1 := expectedHist p s ex b ++ [entry]
        let (test_success, test_output) := ex (b + 1)
        let hist2 := updateLastTestResult hist1 (test_success, test_output)
        if test_success then Except.ok hist2
        else runLoop p s ex r (b + 1 + 1) hist2) =
      Except.ok (expectedHist p s ex (b + stopCount ex (b + 1) (r + 1)))
    rw [hprompt]
    show (let (messages, tool_outputs) := s (b + 1)
      let entry : Entry :=
        ⟨lit "Fix Attempt " ++ natStr (b + 1), (expectedEntry p s ex (b + 1)).user_prompt,
          messages, tool_outputs, none⟩
      let hist1 := expectedHist p s ex b ++ [entry]
      let (test_success, test_output) := ex (b + 1)
      let hist2 := updateLastTestResult hist1 (test_success, test_output)
      if test_success then Except.ok hist2
      else runLoop p s ex r (b + 1 + 1) hist2) = _
    rcases hsx : s (b + 1) with ⟨msgs, touts⟩
    rcases hex : ex (b + 1) with ⟨ts, tout⟩
    simp only []
    have hentry :
        updateLastTestResult
          (expectedHist p s ex b ++
            [⟨lit "Fix Attempt " ++ natStr (b + 1),
              (expectedEntry p s ex (b + 1)).user_prompt, msgs, touts, none⟩])
          (ts, tout) = expectedHist p s ex (b + 1) := by
      rw [updateLast_append, expectedHist_succ]
      congr 1
      congr 1
      unfold expectedEntry
      rw [hsx, hex]
    rw [hentry]
    cases ts with
    | true =>
      have : (ex (b + 1)).1 = true := by rw [hex]
      rw [stopCount_succ_true r this]
      rfl
    | false =>
      have hfalse : (ex (b + 1)).1 = false := by rw [hex]
      rw [stopCount_succ_false r hfalse]
      show runLoop p s ex r (b + 1 + 1) (expectedHist p s ex (b + 1)) = _
      rw [ih (b + 1)]
      congr 1
      congr 1
      omega

lemma run_all_attempts_eq (N : Nat) (p : Str)
    (s : Nat → List Message × List (Str × Json)) (ex : Nat → Bool × Str) :
    run_all_attempts N p s ex = .ok (expectedHist p s ex (attemptsTaken ex N)) := by
  unfold run_all_attempts
  have := runLoop_ok p s ex N 0
  rw [expectedHist_zero] at this
  rw [this, Nat.zero_add]
  rfl

lemma attemptsTaken_eq_stopCount (ex : Nat → Bool × Str) (N : Nat) :
    attemptsTaken ex N = stopCount ex 1 N := rfl

lemma expectedHist_getElem_inv (p : Str) (s : Nat → List Message × List (Str × Json))
    (ex : Nat → Bool × Str) {K j : Nat} {e : Entry}
    (h : (expectedHist p s ex K)[j]? = some e) :
    j < K ∧ e = expectedEntry p s ex (j + 1) := by
  by_cases hj : j < K
  · rw [expectedHist_getElem p s ex K j hj] at h
    cases h
    exact ⟨hj, rfl⟩
  · rw [List.getElem?_eq_none] at h
    · cases h
    · rw [expectedHist_length]; omega

/-- **C2.** With `maxRetries = N ≥ 1` and any adapter result sequence,
`run_all_attempts` performs attempts `1..k`, `k` being the index of the
adapter's first successful call (or `N` when none succeeds), returns —
without an exception — a history of length exactly `k`, every entry
before the `k`-th records `success = false` (holding the adapter's
result for its attempt), and the `k`-th entry records the adapter's
`k`-th result. -/
theorem C2_repair_loop_attempts (N : Nat) (initialPrompt : Str)
    (session : Nat → List Message × List (Str × Json)) (executor : Nat → Bool × Str)
    (hN : 1 ≤ N) :
    ∃ hist, run_all_attempts N initialPrompt session executor = .ok hist ∧
      hist.length = attemptsTaken executor N ∧
      1 ≤ attemptsTaken executor N ∧ attemptsTaken executor N ≤ N ∧
      (∀ j, j + 1 < hist.length →
        ∃ e, hist[j]? = some e ∧ e.test_result = some (executor (j + 1)) ∧
          (executor (j + 1)).1 = false) ∧
      (∃ e, hist[hist.length - 1]? = some e ∧
        e.test_result = some (executor (attemptsTaken executor N))) ∧
      ((∃ k, 1 ≤ k ∧ k ≤ N ∧ (executor k).1 = true) →
        (executor (attemptsTaken executor N)).1 = true) := by
  set K := attemptsTaken executor N with hK
  have hKs : K = stopCount executor 1 N := hK.symm ▸ attemptsTaken_eq_stopCount executor N
  have hK1 : 1 ≤ K := hKs ▸ stopCount_pos hN
  have hKN : K ≤ N := hKs ▸ stopCount_le executor 1 N
  refine ⟨expectedHist initialPrompt session executor K,
    run_all_attempts_eq N initialPrompt session executor, expectedHist_length _ _ _ _,
    hK1, hKN, ?_, ?_, ?_⟩
  · intro j hj
    rw [expectedHist_length] at hj
    refine ⟨expectedEntry initialPrompt session executor (j + 1),
      expectedHist_getElem _ _ _ _ _ (by omega), rfl, ?_⟩
    have := (stopCount_spec executor N 1).1 j (by omega)
    rwa [Nat.add_comm 1 j] at this
  · rw [expectedHist_length]
    refine ⟨expectedEntry initialPrompt session executor (K - 1 + 1),
      expectedHist_getElem _ _ _ _ _ (by omega), ?_⟩
    have : K - 1 + 1 = K := by omega
    rw [this]
    rfl
  · rintro ⟨k, hk1, hkN, hsucc⟩
    have := (stopCount_spec executor N 1).2 ⟨k - 1, by omega, by
      have : 1 + (k - 1) = k := by omega
      rw [this]; exact hsucc⟩
    have harith : 1 + (stopCount executor 1 N - 1) = K := by omega
    rwa [harith] at this

/-- Witness for C2: with `maxRetries = 3` and results
`(false,"err1"), (false,"err2"), (true,"ok")` the loop makes exactly 3
attempts (history length 3, third call successful); with three `false`
results it also makes exactly 3 attempts and returns normally. -/
theorem C2_repair_loop_attempts_witness :
    (1 ≤ 3 ∧ ∃ hist, run_all_attempts 3 [] session0 exThree = .ok hist ∧
      hist.length = attemptsTaken exThree 3) ∧
    attemptsTaken exThree 3 = 3 ∧ (exThree 3).1 = true ∧
    attemptsTaken exFailAll 3 = 3 ∧ (exFailAll 3).1 = false ∧
    (∃ hist, run_all_attempts 3 [] session0 exFailAll = .ok hist ∧ hist.length = 3) := by
  refine ⟨⟨by norm_num, ?_⟩, rfl, rfl, rfl, rfl, ?_⟩
  · obtain ⟨h, h1, h2, _⟩ := C2_repair_loop_attempts 3 [] session0 exThree (by norm_num)
    exact ⟨h, h1, h2⟩
  · obtain ⟨h, h1, h2, _⟩ := C2_repair_loop_attempts 3 [] session0 exFailAll (by norm_num)
    exact ⟨h, h1, h2⟩

/-- **C9.** Loop-history invariant: the returned history is produced
without a dynamic error, every entry carries a recorded test result, and
the retry prompt of each attempt `k > 1` is built from — and agrees
with — the test result recorded for attempt `k-1`. -/
theorem C9_loop_history_invariant (N : Nat) (initialPrompt : Str)
    (session : Nat → List Message × List (Str × Json)) (executor : Nat → Bool × Str) :
    ∃ hist, run_all_attempts N initialPrompt session executor = .ok hist ∧
      (∀ e ∈ hist, e.test_result.isSome = true) ∧
      (∀ j e, hist[j]? = some e → 1 ≤ j →
        e.user_prompt = buildRetryPrompt (j + 1) ((executor j).2) ∧
        ∃ e', hist[j - 1]? = some e' ∧ e'.test_result = some (executor j)) := by
  refine ⟨expectedHist initialPrompt session executor (attemptsTaken executor N),
    run_all_attempts_eq N initialPrompt session executor, ?_, ?_⟩
  · intro e he
    obtain ⟨j, _, rfl⟩ := List.mem_map.mp he
    rfl
  · intro j e hje hj1
    obtain ⟨hjK, rfl⟩ := expectedHist_getElem_inv _ _ _ hje
    constructor
    · show (if j + 1 = 1 then initialPrompt
        else buildRetryPrompt (j + 1) (executor (j + 1 - 1)).2) = _
      rw [if_neg (by omega)]
      simp only [Nat.add_sub_cancel]
    · refine ⟨expectedEntry initialPrompt session executor (j - 1 + 1),
        expectedHist_getElem _ _ _ _ _ (by omega), ?_⟩
      have : j - 1 + 1 = j := by omega
      rw [this]
      rfl

/-- Witness for C9: in the `(false,"err1"), (false,"err2"), (true,"ok")`
run, the second attempt's prompt is the retry prompt built from the
first attempt's recorded output `"err1"`. -/
theorem C9_loop_history_invariant_witness :
    ∃ hist, run_all_attempts 3 [] session0 exThree = .ok hist ∧
      ∃ e, hist[1]? = some e ∧
        e.user_prompt = buildRetryPrompt 2 (lit "err1") ∧
        ∃ e', hist[0]? = some e' ∧ e'.test_result = some (false, lit "err1") := by
  obtain ⟨hist, hok, _, h3⟩ := C9_loop_history_invariant 3 [] session0 exThree
  have hhist : hist = expectedHist [] session0 exThree (attemptsTaken exThree 3) := by
    have heq := run_all_attempts_eq 3 [] session0 exThree
    rw [hok] at heq
    exact Except.ok.inj heq
  have h1 : hist[1]? = some (expectedEntry [] session0 exThree 2) := by
    rw [hhist]; rfl
  obtain ⟨hp, e', he', hr'⟩ := h3 1 _ h1 (by norm_num)
  exact ⟨hist, hok, _, h1, hp, e', he', hr'⟩

/-! ## C5: bounded, absent-safe failure enrichment -/

/-- **C5.** The adapter's failure enrichment is bounded and absent-safe:
without the diagnostic-snapshot start marker in the raw output, the
returned output is the raw output unchanged; on a failing run whose
extracted diagnostic region exceeds 30000 characters, the appended
labelled section holds exactly the region's last 30000 characters
followed by the fixed truncation notice; a region of at most 30000
characters is appended in full with no notice. -/
theorem C5_adapter_enrichment (success : Bool) (output : Str) :
    (¬ ariaMarker <:+: output → runPost success output = (success, output)) ∧
    (∀ s, success = false → extract_aria_snapshot output = some s → 30000 < s.length →
      (runPost success output).2 =
        output ++ ariaHeader ++ pyLast s 30000 ++ ariaNotice ++ ariaFooter) ∧
    (∀ s, success = false → extract_aria_snapshot output = some s → s.length ≤ 30000 →
      (runPost success output).2 = output ++ ariaHeader ++ s ++ ariaFooter) := by
  refine ⟨?_, ?_, ?_⟩
  · intro hmarker
    cases success with
    | true => rfl
    | false =>
      have hfind : pyFind ariaMarker output = none :=
        pyFind_none_iff_not_infix.mpr hmarker
      unfold runPost extract_aria_snapshot
      rw [hfind]
      rfl
  · intro s hsuc hext hlen
    subst hsuc
    unfold runPost
    rw [hext]
    simp only [if_pos (show s.length > 30000 from hlen)]
    simp [List.append_assoc]
  · intro s hsuc hext hlen
    subst hsuc
    unfold runPost
    rw [hext]
    simp only [if_neg (show ¬ s.length > 30000 by omega)]
    simp [List.append_assoc]

lemma dropWhile_replicate_of_not {c : Char} (hc : pySpace c = false) (k : Nat) :
    List.dropWhile pySpace (List.replicate k c) = List.replicate k c := by
  cases k with
  | zero => rfl
  | succ m =>
    rw [List.replicate_succ, List.dropWhile_cons_of_neg (by simp [hc]),
      ← List.replicate_succ]

lemma pyStrip_replicate_of_not {c : Char} (hc : pySpace c = false) (k : Nat) :
    pyStrip (List.replicate k c) = List.replicate k c := by
  unfold pyStrip rstrip lstrip
  rw [dropWhile_replicate_of_not hc, List.reverse_replicate,
    dropWhile_replicate_of_not hc, List.reverse_replicate]

lemma bigOutput_drop35 : bigOutput.drop 35 = bigRegion := by
  unfold bigOutput
  rw [show (35 : Nat) = 34 + 1 from rfl, ← List.drop_drop]
  rw [show (34 : Nat) = ariaMarker.length from rfl, List.drop_left]
  rfl

lemma pyFind_sep_bigRegion : pyFind sepLine bigRegion = none := by
  rw [pyFind_eq_none_iff]
  intro j hpre
  unfold bigRegion at hpre
  rw [List.drop_replicate] at hpre
  rcases hk : 30001 - j with _ | m
  · rw [hk] at hpre
    have := List.prefix_nil.mp hpre
    simp [sepLine] at this
  · rw [hk, List.replicate_succ] at hpre
    have hsep : sepLine = '=' :: List.replicate 79 '=' := by decide
    rw [hsep] at hpre
    have := (List.cons_prefix_cons.mp hpre).1
    simp at this

lemma extract_aria_bigOutput : extract_aria_snapshot bigOutput = some bigRegion := by
  unfold extract_aria_snapshot
  rw [show pyFind ariaMarker bigOutput = some 0 from by decide]
  show (match pyFindFrom ['\n'] bigOutput 0 with
    | none => none
    | some mle => ariaLoop bigOutput (mle + 1)) = some bigRegion
  rw [show pyFindFrom ['\n'] bigOutput 0 = some 34 from by decide]
  show ariaLoop bigOutput (34 + 1) = some bigRegion
  unfold ariaLoop
  rw [if_neg (by
    rintro ⟨-, hslice⟩
    have : bigOutput.take 115 =
        ariaMarker ++ '\n' :: List.replicate 80 'a' := by decide
    rw [pySlice, this] at hslice
    have : List.drop 35 (ariaMarker ++ '\n' :: List.replicate 80 'a') =
        List.replicate 80 'a' := by decide
    rw [this] at hslice
    have := congrArg List.head? hslice
    rw [show (80 : Nat) = 79 + 1 from rfl] at this
    simp [sepLine, List.replicate_succ] at this)]
  have hfrom : pyFindFrom sepLine bigOutput 35 = none := by
    unfold pyFindFrom
    rw [bigOutput_drop35, pyFind_sep_bigRegion]
    rfl
  rw [hfrom]
  show (if pyStrip (bigOutput.drop 35) = [] then none
    else some (pyStrip (bigOutput.drop 35))) = some bigRegion
  rw [bigOutput_drop35]
  rw [show pyStrip bigRegion = bigRegion from
    @pyStrip_replicate_of_not 'a' (by decide) 30001]
  rw [if_neg (by
    intro h
    have hlen := congrArg List.length h
    rw [show bigRegion.length = 30001 from by
      unfold bigRegion; rw [List.length_replicate], List.length_nil] at hlen
    omega)]

/-- Witness for C5: a failing run whose diagnostic region has 30001
characters is enriched with exactly the last 30000 of them plus the
truncation notice. -/
theorem C5_adapter_enrichment_witness :
    extract_aria_snapshot bigOutput = some bigRegion ∧ 30000 < bigRegion.length ∧
      (runPost false bigOutput).2 =
        bigOutput ++ ariaHeader ++ pyLast bigRegion 30000 ++ ariaNotice ++ ariaFooter := by
  have h1 : extract_aria_snapshot bigOutput = some bigRegion := extract_aria_bigOutput
  have h2 : 30000 < bigRegion.length := by
    rw [show bigRegion.length = 30001 from by
      unfold bigRegion; rw [List.length_replicate]]
    norm_num
  exact ⟨h1, h2, (C5_adapter_enrichment false bigOutput).2.1 bigRegion rfl h1 h2⟩

/-! ## C3/C7: last-checklist extraction -/

lemma prefix_append_of_length_le {p a r : Str} (h : p <+: a ++ r)
    (hl : p.length ≤ a.length) : p <+: a := by
  obtain ⟨u, hu⟩ := h
  have h2 := congrArg (List.take p.length) hu
  rw [List.take_left' rfl, List.take_append_of_le_length hl] at h2
  exact h2 ▸ List.take_prefix p.length a

lemma append_eq_take {p u a r : Str} (h : p ++ u = a ++ r)
    (hl : a.length ≤ p.length) : a = p.take a.length := by
  have h2 := congrArg (List.take a.length) h
  rw [List.take_append_of_le_length hl, List.take_left] at h2
  exact h2.symm

/-- A `"#### Tool:"` occurrence cannot start strictly inside a
`"#### Tool: TodoWrite"` occurrence. -/
lemma no_tool_overlap {text : Str} {i q : Nat} (hi : todoMarker <+: text.drop i)
    (hq : toolMarker <+: text.drop q) (h1 : i < q) (h2 : q < i + 20) : False := by
  obtain ⟨r, hr⟩ := hi
  set d := q - i with hd
  have hdrop : text.drop q = (todoMarker.drop d) ++ r := by
    have : text.drop q = (text.drop i).drop d := by
      rw [List.drop_drop]
      congr 1
      omega
    rw [this, ← hr, List.drop_append_of_le_length (by simp [todoMarker, lit]; omega)]
  rw [hdrop] at hq
  have hd1 : 1 ≤ d := by omega
  have hd19 : d ≤ 19 := by omega
  interval_cases d <;>
    first
      | exact absurd (prefix_append_of_length_le hq (by decide)) (by decide)
      | (obtain ⟨u, hu⟩ := hq
         exact absurd (append_eq_take hu (by decide)) (by decide))

lemma pyFindFrom_eq_some_iff {pat s : Str} {start q : Nat} :
    pyFindFrom pat s start = some q ↔
      ∃ q0, pyFind pat (s.drop start) = some q0 ∧ q = q0 + start := by
  unfold pyFindFrom
  constructor
  · intro h
    rcases Option.map_eq_some'.mp h with ⟨q0, hq0, rfl⟩
    exact ⟨q0, hq0, rfl⟩
  · rintro ⟨q0, hq0, rfl⟩
    rw [hq0]
    rfl

lemma pyFindFrom_eq_none_iff {pat s : Str} {start : Nat} :
    pyFindFrom pat s start = none ↔ pyFind pat (s.drop start) = none := by
  unfold pyFindFrom
  cases pyFind pat (s.drop start) <;> simp

lemma extract_lltt_eq (parse : Str → Option Json) (text : Str) (i : Nat)
    (hr : pyRFind todoMarker text = some i) :
    extract_last_todo_list_text parse text =
      (firstJsonBlock (todoSectionText text i)).bind parse := by
  unfold extract_last_todo_list_text
  rw [hr]
  show (match firstJsonBlock (todoSectionText text i) with
    | none => none
    | some jd => parse jd) = _
  cases firstJsonBlock (todoSectionText text i) <;> rfl

lemma todoSection_eq_some (text : Str) (i q : Nat)
    (hq : pyFindFrom toolMarker text (i + 20) = some q) :
    todoSectionText text i = pySlice text i q := by
  unfold todoSectionText
  rw [hq]

lemma todoSection_eq_none (text : Str) (i : Nat)
    (hq : pyFindFrom toolMarker text (i + 20) = none) :
    todoSectionText text i = text.drop i := by
  unfold todoSectionText
  rw [hq]

/-- **C3.** `extract_last_todo_list` selects the checklist snapshot at
the greatest byte offset: with at least one `"#### Tool: TodoWrite"`
marker present, the returned value is the parse of the first fenced JSON
block of the section that starts at the rightmost marker occurrence and
runs to the next `"#### Tool:"` occurrence (or to the end of the
document); with no marker it returns absent rather than an error. -/
theorem C3_last_todo_rightmost (parse : Str → Option Json) (text : Str) :
    (¬ todoMarker <:+: text → extract_last_todo_list parse (some text) = .ok none) ∧
    (todoMarker <:+: text →
      ∃ i, todoMarker <+: text.drop i ∧ (∀ j, todoMarker <+: text.drop j → j ≤ i) ∧
        ((∃ q, toolMarker <+: text.drop q ∧ i < q ∧
            (∀ q', toolMarker <+: text.drop q' → i < q' → q ≤ q') ∧
            extract_last_todo_list parse (some text) =
              .ok ((firstJsonBlock (pySlice text i q)).bind parse)) ∨
          ((∀ q, toolMarker <+: text.drop q → q ≤ i) ∧
            extract_last_todo_list parse (some text) =
              .ok ((firstJsonBlock (text.drop i)).bind parse)))) := by
  have htodo : todoMarker ≠ [] := by decide
  constructor
  · intro h
    have hrn : pyRFind todoMarker text = none :=
      (pyRFind_eq_none_iff htodo).mpr (fun j hc => h ( occ_iff_infix.mp ⟨j, hc⟩))
    show Except.ok (extract_last_todo_list_text parse text) = _
    unfold extract_last_todo_list_text
    rw [hrn]
  · intro h
    obtain ⟨j0, hj0⟩ := occ_iff_infix.mpr h
    cases hr : pyRFind todoMarker text with
    | none => exact absurd hj0 ((pyRFind_eq_none_iff htodo).mp hr j0)
    | some i =>
      obtain ⟨hocc, hmax⟩ := (pyRFind_eq_some_iff htodo).mp hr
      refine ⟨i, hocc, hmax, ?_⟩
      cases hnext : pyFindFrom toolMarker text (i + 20) with
      | some q =>
        left
        obtain ⟨q0, hq0, rfl⟩ := pyFindFrom_eq_some_iff.mp hnext
        obtain ⟨hocc0, hmin0⟩ := pyFind_eq_some_iff.mp hq0
        rw [List.drop_drop] at hocc0
        have hocc0' : toolMarker <+: text.drop (q0 + (i + 20)) := by
          rw [show q0 + (i + 20) = i + 20 + q0 from by omega]
          exact hocc0
        refine ⟨q0 + (i + 20), hocc0', by omega, ?_, ?_⟩
        · intro q' hq' hiq'
          by_cases hq20 : q' < i + 20
          · exact (no_tool_overlap hocc hq' hiq' hq20).elim
          · by_contra hlt
            have hj : q' - (i + 20) < q0 := by omega
            have : toolMarker <+: (text.drop (i + 20)).drop (q' - (i + 20)) := by
              rw [List.drop_drop, show i + 20 + (q' - (i + 20)) = q' from by omega]
              exact hq'
            exact hmin0 (q' - (i + 20)) hj this
        · show Except.ok (extract_last_todo_list_text parse text) = _
          rw [extract_lltt_eq parse text i hr, todoSection_eq_some text i _ hnext]
      | none =>
        right
        have hnone := pyFindFrom_eq_none_iff.mp hnext
        refine ⟨?_, ?_⟩
        · intro q hq
          by_contra hlt
          push_neg at hlt
          by_cases hq20 : q < i + 20
          · exact no_tool_overlap hocc hq hlt hq20
          · have : toolMarker <+: (text.drop (i + 20)).drop (q - (i + 20)) := by
              rw [List.drop_drop, show i + 20 + (q - (i + 20)) = q from by omega]
              exact hq
            exact pyFind_eq_none_iff.mp hnone (q - (i + 20)) this
        · show Except.ok (extract_last_todo_list_text parse text) = _
          rw [extract_lltt_eq parse text i hr, todoSection_eq_none text i hnext]

/-- Witness for C3: on a document with checklist markers at offsets 0
and 23, the extracted snapshot is the one at the rightmost marker. -/
theorem C3_last_todo_rightmost_witness :
    todoMarker <:+: wdoc ∧
    (∃ i, todoMarker <+: wdoc.drop i ∧ (∀ j, todoMarker <+: wdoc.drop j → j ≤ i) ∧
      ((∃ q, toolMarker <+: wdoc.drop q ∧ i < q ∧
          (∀ q', toolMarker <+: wdoc.drop q' → i < q' → q ≤ q') ∧
          extract_last_todo_list parse0 (some wdoc) =
            .ok ((firstJsonBlock (pySlice wdoc i q)).bind parse0)) ∨
        ((∀ q, toolMarker <+: wdoc.drop q → q ≤ i) ∧
          extract_last_todo_list parse0 (some wdoc) =
            .ok ((firstJsonBlock (wdoc.drop i)).bind parse0)))) := by
  have hinf : todoMarker <:+: wdoc := occ_iff_infix.mp ⟨23, by decide⟩
  exact ⟨hinf, (C3_last_todo_rightmost parse0 wdoc).2 hinf⟩

/-- **C7.** On an existing document that has the checklist marker but
whose located section has no fenced JSON block, or whose block fails to
parse, `extract_last_todo_list` and `extract_last_todo` both return
absent (`.ok none`) and never raise. -/
theorem C7_malformed_section_absent (parse : Str → Option Json) (text : Str) (i : Nat)
    (hmarker : pyRFind todoMarker text = some i)
    (hbad : firstJsonBlock (todoSectionText text i) = none ∨
      (∃ jd, firstJsonBlock (todoSectionText text i) = some jd ∧ parse jd = none)) :
    extract_last_todo_list parse (some text) = .ok none ∧
    extract_last_todo parse (some text) = .ok none := by
  have hll : extract_last_todo_list_text parse text = none := by
    rw [extract_lltt_eq parse text i hmarker]
    rcases hbad with hnone | ⟨jd, hjd, hp⟩
    · rw [hnone]
      rfl
    · rw [hjd]
      simpa using hp
  constructor
  · show Except.ok (extract_last_todo_list_text parse text) = _
    rw [hll]
  · show extract_last_todo_text parse text = _
    unfold extract_last_todo_text
    rw [hll]

/-- **C4.** `extract_tool_calls` emits records only via the per-section
candidate computation, and a section lacking either the `**Input:**`
fenced JSON block or the `### Ran Playwright code` fenced js block
contributes no `ToolCall`; in particular a document whose only tool
section has an input payload but no recognizable code/output artifact
yields the empty sequence. -/
theorem C4_both_halves_required (parse : Str → Option Json) (text : Str) :
    extract_tool_calls_text parse text =
      (List.range (findIter toolMarker text).length).filterMap
        (sectionToolCall parse text (findIter toolMarker text)) ∧
    (∀ i,
      (reSearchLazy inputPre nlFence (extractSection text (findIter toolMarker text) i) = none ∨
       reSearchLazy playPre nlFence (extractSection text (findIter toolMarker text) i) = none) →
      sectionToolCall parse text (findIter toolMarker text) i = none) ∧
    extract_tool_calls_text parse cdoc4 = [] := by
  refine ⟨rfl, ?_, rfl⟩
  intro i hbad
  rcases hbad with hin | hpl
  · simp only [sectionToolCall]
    rw [hin]
    cases reSearchLine toolNamePre (extractSection text (findIter toolMarker text) i) <;> rfl
  · simp only [sectionToolCall]
    rw [hpl]
    cases reSearchLine toolNamePre (extractSection text (findIter toolMarker text) i) with
    | none => rfl
    | some nm =>
      cases reSearchLazy inputPre nlFence
        (extractSection text (findIter toolMarker text) i) <;> rfl

/-- Witness for C4: on the one-section document with an input block and
no Playwright artifact, the section is skipped and the extraction is
empty. -/
theorem C4_both_halves_required_witness :
    reSearchLazy playPre nlFence (extractSection cdoc4 (findIter toolMarker cdoc4) 0) = none ∧
    sectionToolCall parse0 cdoc4 (findIter toolMarker cdoc4) 0 = none ∧
    extract_tool_calls_text parse0 cdoc4 = [] := by
  refine ⟨by decide, ?_, ?_⟩
  · exact (C4_both_halves_required parse0 cdoc4).2.1 0 (Or.inr (by decide))
  · exact (C4_both_halves_required parse0 cdoc4).2.2

/-- Witness for C7: a document whose checklist section lacks any fenced
JSON block yields absent from both operations without an error. -/
theorem C7_malformed_section_absent_witness :
    pyRFind todoMarker text7 = some 0 ∧
    firstJsonBlock (todoSectionText text7 0) = none ∧
    (extract_last_todo_list parse0 (some text7) = .ok none ∧
      extract_last_todo parse0 (some text7) = .ok none) :=
  ⟨by decide, by decide,
    C7_malformed_section_absent parse0 text7 0 (by decide) (Or.inl (by decide))⟩

/-! ## C8: test-result truncation in the formatter -/

lemma entryLinesAll_mem {cfg : FormatterCfg} {sts : Bool} :
    ∀ {history : List Entry} {L : List Str} {entry : Entry},
      entryLinesAll cfg sts history = some L → entry ∈ history →
      ∃ le, entryLines cfg sts entry = some le ∧ le <:+: L := by
  intro history
  induction history with
  | nil =>
    intro L entry _ hmem
    cases hmem
  | cons e rest ih =>
    intro L entry hall hmem
    unfold entryLinesAll at hall
    cases hle : entryLines cfg sts e with
    | none => rw [hle] at hall; cases hall
    | some ls =>
      cases hrest : entryLinesAll cfg sts rest with
      | none => rw [hle, hrest] at hall; cases hall
      | some rs =>
        rw [hle, hrest] at hall
        cases hall
        rcases List.mem_cons.mp hmem with rfl | hmem'
        · exact ⟨ls, hle, ⟨[], rs, by simp⟩⟩
        · obtain ⟨le, hle', hinf⟩ := ih hrest hmem'
          exact ⟨le, hle', hinf.trans (List.suffix_append ls rs).isInfix⟩

lemma entryLines_structure {cfg : FormatterCfg} {sts : Bool} {entry : Entry}
    {le : List Str} (h : entryLines cfg sts entry = some le)
    (hinc : cfg.include_test_results = true) {succ : Bool} {out : Str}
    (hres : entry.test_result = some (succ, out)) :
    testResultBlock succ out <:+: le := by
  unfold entryLines at h
  rw [hres, hinc] at h
  cases hpm : processMessages [] entry.messages with
  | none => rw [hpm] at h; cases h
  | some p =>
    rw [hpm] at h
    cases h
    refine ⟨[lit "## " ++ entry.step, []] ++
      (if entry.user_prompt ≠ [] then
        [lit "### User Prompt", [], fence, entry.user_prompt, fence, []] else []),
      [lit "### Claude's Response", []] ++ p.1 ++
        (if sts && !entry.tool_outputs.isEmpty then
          summaryLines p.2 entry.tool_outputs else []) ++ [lit "---", []], ?_⟩
    simp [List.append_assoc]

/-- **C8.** With test-result inclusion enabled and a history entry
carrying a test result, the formatter renders the result output in a
fenced block under a 5000-character budget, appending the truncation
marker exactly when the output exceeds 5000 characters; an output of at
most 5000 characters is rendered in full with no marker. -/
theorem C8_test_result_truncation (cfg : FormatterCfg) (now : Str)
    (history : List Entry) (sts : Bool) (entry : Entry) (succ : Bool) (out : Str)
    (L : List Str) (hinc : cfg.include_test_results = true) (hmem : entry ∈ history)
    (hres : entry.test_result = some (succ, out))
    (hfmt : formatConversationLines cfg now history sts = some L) :
    (5000 < out.length →
      testResultBlock succ out =
        [lit "### Test Execution Result: " ++ statusStr succ, [], fence] ++
          [pyTake out 5000, lit "\n... (truncated)"] ++ [fence, []]) ∧
    (out.length ≤ 5000 →
      testResultBlock succ out =
        [lit "### Test Execution Result: " ++ statusStr succ, [], fence] ++
          [out] ++ [fence, []]) ∧
    testResultBlock succ out <:+: L := by
  refine ⟨?_, ?_, ?_⟩
  · intro hlen
    unfold testResultBlock
    rw [if_pos (show out.length > 5000 from hlen)]
  · intro hlen
    unfold testResultBlock
    rw [if_neg (show ¬ out.length > 5000 by omega)]
  · unfold formatConversationLines at hfmt
    cases hall : entryLinesAll cfg sts history with
    | none => rw [hall] at hfmt; cases hfmt
    | some L' =>
      rw [hall] at hfmt
      cases hfmt
      obtain ⟨le, hle, hinf⟩ := entryLinesAll_mem hall hmem
      exact ((entryLines_structure hle hinc hres).trans hinf).trans
        (List.suffix_append (headerLines cfg now) L').isInfix

/-- Witness for C8: a 5001-character output is rendered truncated to
5000 characters with the marker, inside the formatted document. -/
theorem C8_test_result_truncation_witness :
    ∃ L, formatConversationLines cfg8 (lit "now") [entry8] false = some L ∧
      5000 < bigOut5.length ∧
      testResultBlock true bigOut5 =
        [lit "### Test Execution Result: " ++ statusStr true, [], fence] ++
          [pyTake bigOut5 5000, lit "\n... (truncated)"] ++ [fence, []] ∧
      testResultBlock true bigOut5 <:+: L := by
  obtain ⟨L, hL⟩ : ∃ L, formatConversationLines cfg8 (lit "now") [entry8] false = some L :=
    ⟨_, rfl⟩
  obtain ⟨h1, _, h3⟩ := C8_test_result_truncation cfg8 (lit "now") [entry8] false entry8
    true bigOut5 L rfl (List.mem_singleton.mpr rfl) rfl hL
  have hlen : 5000 < bigOut5.length := by
    rw [show bigOut5.length = 5001 from by unfold bigOut5; rw [List.length_replicate]]
    norm_num
  exact ⟨L, hL, hlen, h1 hlen, h3⟩

/-! ## C10: per-record tool-name resolution -/

lemma assistantStep_foldl_snd (blocks : List Block) :
    ∀ (ls : List Str) (m : List (Str × Str)),
      (blocks.foldl assistantStep (ls, m)).2 = blocksMap m blocks := by
  induction blocks with
  | nil => intro ls m; rfl
  | cons b bs ih =>
    intro ls m
    cases b with
    | text t => exact ih _ m
    | toolUse id name input => exact ih _ (dictSet m id name)
    | toolResult tid c ie => exact ih _ m
    | other => exact ih _ m

lemma processMessages_assistant_cons (m : List (Str × Str)) (blocks : List Block)
    (ms : List Message) :
    processMessages m (.assistant blocks :: ms) =
      match processMessages (blocks.foldl assistantStep ([], m)).2 ms with
      | some (rest, mfin) => some ((blocks.foldl assistantStep ([], m)).1 ++ rest, mfin)
      | none => none := rfl

lemma processMessages_user_cons (m : List (Str × Str)) (blocks : List Block)
    (ms : List Message) :
    processMessages m (.user blocks :: ms) =
      match blocks.foldl (userStep m) (some []) with
      | none => none
      | some ls =>
        match processMessages m ms with
        | some (rest, mfin) => some (ls ++ rest, mfin)
        | none => none := rfl

lemma processMessages_other_cons (m : List (Str × Str)) (ms : List Message) :
    processMessages m (.other :: ms) = processMessages m ms := rfl

lemma processMessages_snd : ∀ (msgs : List Message) (m : List (Str × Str))
    {L : List Str} {mf : List (Str × Str)},
    processMessages m msgs = some (L, mf) → mf = mapOf m msgs := by
  intro msgs
  induction msgs with
  | nil =>
    intro m L mf h
    cases h
    rfl
  | cons msg ms ih =>
    intro m L mf h
    cases msg with
    | assistant blocks =>
      rw [processMessages_assistant_cons] at h
      cases hrest : processMessages (blocks.foldl assistantStep ([], m)).2 ms with
      | none => rw [hrest] at h; simp at h
      | some p =>
        rcases p with ⟨rest, mfin⟩
        rw [hrest] at h
        simp only [Option.some.injEq, Prod.mk.injEq] at h
        rw [assistantStep_foldl_snd] at hrest
        rw [← h.2]
        exact ih _ hrest
    | user blocks =>
      rw [processMessages_user_cons] at h
      cases hfold : blocks.foldl (userStep m) (some []) with
      | none => rw [hfold] at h; simp at h
      | some ls =>
        rw [hfold] at h
        cases hrest : processMessages m ms with
        | none => rw [hrest] at h; simp at h
        | some p =>
          rcases p with ⟨rest, mfin⟩
          rw [hrest] at h
          simp only [Option.some.injEq, Prod.mk.injEq] at h
          rw [← h.2]
          exact ih _ hrest
    | other =>
      rw [processMessages_other_cons] at h
      exact ih _ h

lemma processMessages_append_inv : ∀ (xs : List Message) {ys : List Message}
    {m : List (Str × Str)} {L : List Str} {mf : List (Str × Str)},
    processMessages m (xs ++ ys) = some (L, mf) →
    ∃ L1 m1 L2, processMessages m xs = some (L1, m1) ∧
      processMessages m1 ys = some (L2, mf) ∧ L = L1 ++ L2 := by
  intro xs
  induction xs with
  | nil =>
    intro ys m L mf h
    exact ⟨[], m, L, rfl, h, by simp⟩
  | cons msg ms ih =>
    intro ys m L mf h
    rw [List.cons_append] at h
    cases msg with
    | assistant blocks =>
      rw [processMessages_assistant_cons] at h
      cases hrest : processMessages (blocks.foldl assistantStep ([], m)).2 (ms ++ ys) with
      | none => rw [hrest] at h; simp at h
      | some p =>
        rcases p with ⟨rest, mfin⟩
        rw [hrest] at h
        simp only [Option.some.injEq, Prod.mk.injEq] at h
        obtain ⟨L1, m1, L2, hms, hys, rfl⟩ := ih hrest
        refine ⟨(blocks.foldl assistantStep ([], m)).1 ++ L1, m1, L2, ?_, ?_, ?_⟩
        · rw [processMessages_assistant_cons, hms]
        · rw [hys, h.2]
        · rw [← h.1, List.append_assoc]
    | user blocks =>
      rw [processMessages_user_cons] at h
      cases hfold : blocks.foldl (userStep m) (some []) with
      | none => rw [hfold] at h; simp at h
      | some ls =>
        rw [hfold] at h
        cases hrest : processMessages m (ms ++ ys) with
        | none => rw [hrest] at h; simp at h
        | some p =>
          rcases p with ⟨rest, mfin⟩
          rw [hrest] at h
          simp only [Option.some.injEq, Prod.mk.injEq] at h
          obtain ⟨L1, m1, L2, hms, hys, rfl⟩ := ih hrest
          refine ⟨ls ++ L1, m1, L2, ?_, ?_, ?_⟩
          · rw [processMessages_user_cons, hfold, hms]
          · rw [hys, h.2]
          · rw [← h.1, List.append_assoc]
    | other =>
      rw [processMessages_other_cons] at h
      obtain ⟨L1, m1, L2, hms, hys, rfl⟩ := ih h
      exact ⟨L1, m1, L2, by rw [processMessages_other_cons, hms], hys, rfl⟩

lemma processMessages_user_cons_inv {blocks : List Block} {rest : List Message}
    {m : List (Str × Str)} {L : List Str} {mf : List (Str × Str)}
    (h : processMessages m (.user blocks :: rest) = some (L, mf)) :
    ∃ ls L2, blocks.foldl (userStep m) (some []) = some ls ∧
      processMessages m rest = some (L2, mf) ∧ L = ls ++ L2 := by
  rw [processMessages_user_cons] at h
  cases hfold : blocks.foldl (userStep m) (some []) with
  | none => rw [hfold] at h; simp at h
  | some ls =>
    rw [hfold] at h
    cases hrest : processMessages m rest with
    | none => rw [hrest] at h; simp at h
    | some q =>
      rcases q with ⟨L2, m2⟩
      rw [hrest] at h
      simp only [Option.some.injEq, Prod.mk.injEq] at h
      exact ⟨ls, L2, rfl, by rw [h.2], h.1.symm⟩

lemma dictGetStr_dictSet (m : List (Str × Str)) (k v tid : Str) :
    dictGetStr (dictSet m k v) tid = if k = tid then some v else dictGetStr m tid := by
  unfold dictGetStr dictSet
  by_cases h : k = tid
  · subst h
    rw [List.find?_cons_of_pos _ (by simp)]
    simp
  · rw [List.find?_cons_of_neg _ (by simpa using h), if_neg h]

lemma blocksMap_get_none {tid : Str} : ∀ (blocks : List Block) (m : List (Str × Str)),
    dictGetStr m tid = none →
    (∀ b ∈ blocks, ∀ nm inp, b ≠ Block.toolUse tid nm inp) →
    dictGetStr (blocksMap m blocks) tid = none := by
  intro blocks
  induction blocks with
  | nil => intro m hm _; exact hm
  | cons b bs ih =>
    intro m hm hb
    cases b with
    | toolUse id name input =>
      show dictGetStr (blocksMap (dictSet m id name) bs) tid = none
      refine ih _ ?_ (fun b' hb' => hb b' (List.mem_cons_of_mem _ hb'))
      rw [dictGetStr_dictSet]
      rw [if_neg (fun h => hb _ (List.mem_cons_self _ _) name input (by rw [h]))]
      exact hm
    | text t => exact ih m hm (fun b' hb' => hb b' (List.mem_cons_of_mem _ hb'))
    | toolResult a c e => exact ih m hm (fun b' hb' => hb b' (List.mem_cons_of_mem _ hb'))
    | other => exact ih m hm (fun b' hb' => hb b' (List.mem_cons_of_mem _ hb'))

lemma mapOf_get_none {tid : Str} : ∀ (msgs : List Message) (m : List (Str × Str)),
    dictGetStr m tid = none →
    (∀ msg ∈ msgs, ∀ bs, msg = Message.assistant bs →
      ∀ b ∈ bs, ∀ nm inp, b ≠ Block.toolUse tid nm inp) →
    dictGetStr (mapOf m msgs) tid = none := by
  intro msgs
  induction msgs with
  | nil => intro m hm _; exact hm
  | cons msg ms ih =>
    intro m hm hmsg
    cases msg with
    | assistant blocks =>
      show dictGetStr (mapOf (blocksMap m blocks) ms) tid = none
      refine ih _ ?_ (fun msg' hm' => hmsg msg' (List.mem_cons_of_mem _ hm'))
      exact blocksMap_get_none blocks m hm
        (hmsg _ (List.mem_cons_self _ _) blocks rfl)
    | user blocks => exact ih m hm (fun msg' hm' => hmsg msg' (List.mem_cons_of_mem _ hm'))
    | other => exact ih m hm (fun msg' hm' => hmsg msg' (List.mem_cons_of_mem _ hm'))

lemma toolResultLines_head (m : List (Str × Str)) (tid : Str) (c : Json)
    {ls : List Str} (h : toolResultLines m tid c = some ls) :
    ls.head? = some (lit "**Output (" ++ resolveName m tid ++ lit "):**") := by
  cases c with
  | arr es =>
    cases es with
    | nil =>
      simp only [toolResultLines, Option.some.injEq] at h
      subst h; rfl
    | cons first rest =>
      cases first with
      | obj kvs =>
        simp only [toolResultLines] at h
        cases hg : dictGet kvs (lit "text") with
        | none =>
          rw [hg] at h
          simp only [Option.some.injEq] at h
          subst h; rfl
        | some v =>
          rw [hg] at h
          cases v with
          | str t =>
            simp only [Option.some.injEq] at h
            subst h; rfl
          | null => simp at h
          | bool b => simp at h
          | num n => simp at h
          | arr a => simp at h
          | obj o => simp at h
      | null =>
        simp only [toolResultLines, Option.some.injEq] at h
        subst h; rfl
      | bool b =>
        simp only [toolResultLines, Option.some.injEq] at h
        subst h; rfl
      | num n =>
        simp only [toolResultLines, Option.some.injEq] at h
        subst h; rfl
      | str s =>
        simp only [toolResultLines, Option.some.injEq] at h
        subst h; rfl
      | arr a =>
        simp only [toolResultLines, Option.some.injEq] at h
        subst h; rfl
  | null =>
    simp only [toolResultLines, Option.some.injEq] at h
    subst h; rfl
  | bool b =>
    simp only [toolResultLines, Option.some.injEq] at h
    subst h; rfl
  | num n =>
    simp only [toolResultLines, Option.some.injEq] at h
    subst h; rfl
  | str s =>
    simp only [toolResultLines, Option.some.injEq] at h
    subst h; rfl
  | obj kvs =>
    simp only [toolResultLines, Option.some.injEq] at h
    subst h; rfl

/-- **C10.** The formatter resolves a tool result's display name only
against tool invocations encountered earlier within the same record (the
id-to-invocation map is re-initialised per record), so a result whose
matching invocation lives in a different record, or occurs after the
result in the same record, is rendered with the name `"Unknown"`; a
Tool Outputs Summary entry whose id matches no invocation of its own
record likewise renders `"Unknown"`. -/
theorem C10_unknown_resolution (msgs : List Message) (i : Nat) (blocks : List Block)
    (j : Nat) (tid : Str) (content : Json) (ie : Option Bool)
    (hmsg : msgs[i]? = some (.user blocks))
    (_hblk : blocks[j]? = some (.toolResult tid content ie))
    (hnouse : ∀ m ∈ msgs.take i, ∀ bs, m = Message.assistant bs →
      ∀ b ∈ bs, ∀ nm inp, b ≠ Block.toolUse tid nm inp) :
    resolveName (mapOf [] (msgs.take i)) tid = lit "Unknown" ∧
    (∀ ls, toolResultLines (mapOf [] (msgs.take i)) tid content = some ls →
      ls.head? = some (lit "**Output (" ++ lit "Unknown" ++ lit "):**")) ∧
    (∀ L mfin, processMessages [] msgs = some (L, mfin) →
      ∃ L1 ls L2, processMessages [] (msgs.take i) = some (L1, mapOf [] (msgs.take i)) ∧
        blocks.foldl (userStep (mapOf [] (msgs.take i))) (some []) = some ls ∧
        L = L1 ++ ls ++ L2) ∧
    ((∀ m ∈ msgs, ∀ bs, m = Message.assistant bs →
        ∀ b ∈ bs, ∀ nm inp, b ≠ Block.toolUse tid nm inp) →
      ∀ out, (summaryItemLines (mapOf [] msgs) (tid, out)).head? =
        some (lit "**" ++ lit "Unknown" ++ lit " (" ++ tid ++ lit "):**")) := by
  have hget : dictGetStr (mapOf [] (msgs.take i)) tid = none :=
    mapOf_get_none (msgs.take i) [] rfl hnouse
  have hres : resolveName (mapOf [] (msgs.take i)) tid = lit "Unknown" := by
    unfold resolveName
    rw [hget]
    rfl
  refine ⟨hres, ?_, ?_, ?_⟩
  · intro ls hls
    rw [toolResultLines_head _ _ _ hls, hres]
  · intro L mfin hall
    obtain ⟨hlen, helem⟩ := List.getElem?_eq_some.mp hmsg
    have hdrop : msgs.drop i = Message.user blocks :: msgs.drop (i + 1) := by
      rw [List.drop_eq_getElem_cons hlen, helem]
    have hdecomp : msgs = msgs.take i ++ (Message.user blocks :: msgs.drop (i + 1)) := by
      conv_lhs => rw [← List.take_append_drop i msgs]
      rw [hdrop]
    rw [hdecomp] at hall
    obtain ⟨L1, m1, L2, hpre, hrest, rfl⟩ := processMessages_append_inv (msgs.take i) hall
    have hm1 : m1 = mapOf [] (msgs.take i) := processMessages_snd _ _ hpre
    subst hm1
    obtain ⟨ls, L3, hfold, _, rfl⟩ := processMessages_user_cons_inv hrest
    exact ⟨L1, ls, L3, hpre, hfold, by rw [List.append_assoc]⟩
  · intro hall out
    have hres2 : resolveName (mapOf [] msgs) tid = lit "Unknown" := by
      unfold resolveName
      rw [mapOf_get_none msgs [] rfl hall]
      rfl
    unfold summaryItemLines
    simp only [List.head?_cons, Option.some.injEq]
    rw [hres2]

/-- Witness for C10: a tool result whose matching invocation only
occurs after it in the record is rendered with the name `"Unknown"`. -/
theorem C10_unknown_resolution_witness :
    resolveName (mapOf [] (msgs10.take 0)) (lit "tid1") = lit "Unknown" ∧
    (∃ ls, toolResultLines (mapOf [] (msgs10.take 0)) (lit "tid1")
        (Json.str (lit "out")) = some ls ∧
      ls.head? = some (lit "**Output (" ++ lit "Unknown" ++ lit "):**")) ∧
    (∃ L mfin, processMessages [] msgs10 = some (L, mfin) ∧
      ∃ L1 ls L2, processMessages [] (msgs10.take 0) = some (L1, mapOf [] (msgs10.take 0)) ∧
        blocks10.foldl (userStep (mapOf [] (msgs10.take 0))) (some []) = some ls ∧
        L = L1 ++ ls ++ L2) := by
  obtain ⟨h1, h2, h3, _⟩ := C10_unknown_resolution msgs10 0 blocks10 0 (lit "tid1")
    (Json.str (lit "out")) none rfl rfl
    (fun m hm => absurd hm (List.not_mem_nil m))
  refine ⟨h1, ⟨_, rfl, h2 _ rfl⟩, ?_⟩
  obtain ⟨L, mfin, hLm⟩ : ∃ L mfin, processMessages [] msgs10 = some (L, mfin) :=
    ⟨_, _, rfl⟩
  obtain ⟨L1, ls, L2, hp, hf, hL⟩ := h3 L mfin hLm
  exact ⟨L, mfin, hLm, L1, ls, L2, hp, hf, hL⟩

/-! ## C6: NotFound is surfaced exactly when the file is missing -/

lemma extract_last_todo_text_ne_fnf (parse : Str → Option Json) (t : Str) :
    extract_last_todo_text parse t ≠ .error .fileNotFound := by
  unfold extract_last_todo_text
  cases hl : extract_last_todo_list_text parse t with
  | none => simp
  | some j =>
    cases htr : truthy j with
    | false => simp [htr]
    | true =>
      cases j with
      | obj kvs =>
        simp only [htr, if_true]
        cases hg : dictGet kvs (lit "todos") with
        | none => simp
        | some v =>
          cases htv : truthy v with
          | false => simp [htv]
          | true =>
            simp only [htv, if_true]
            unfold pyLastIndex
            cases v with
            | arr es => cases hgl : es.getLast? <;> simp [hgl, Except.map]
            | str s => cases hgl : s.getLast? <;> simp [hgl, Except.map]
            | obj o => simp [Except.map]
            | null => simp [Except.map]
            | bool b => simp [Except.map]
            | num n => simp [Except.map]
      | null => simp [htr]
      | bool b => simp [htr]
      | num n => simp [htr]
      | str s => simp [htr]
      | arr es => simp [htr]

/-- **C6.** `extract_tool_calls`, `extract_last_todo_list` and
`extract_last_todo` raise the file-not-found error if and only if the
transcript document does not exist; when it exists, the absence of any
marker, section or block within it never surfaces this error. -/
theorem C6_file_not_found_iff (parse : Str → Option Json) (file : Option Str) :
    (extract_tool_calls parse file = .error .fileNotFound ↔ file = none) ∧
    (extract_last_todo_list parse file = .error .fileNotFound ↔ file = none) ∧
    (extract_last_todo parse file = .error .fileNotFound ↔ file = none) := by
  cases file with
  | none =>
    refine ⟨?_, ?_, ?_⟩ <;>
      simp [extract_tool_calls, extract_last_todo_list, extract_last_todo]
  | some t =>
    refine ⟨?_, ?_, ?_⟩
    · simp [extract_tool_calls]
    · simp [extract_last_todo_list]
    · simp only [extract_last_todo]
      constructor
      · intro h
        exact absurd h (extract_last_todo_text_ne_fnf parse t)
      · intro h
        cases h

/-! ## C1: the round-trip property as stated fails

A history whose only response is a plain `TextBlock` — so it contains no
tool invocation at all — renders to a document from which
`extract_tool_calls` recovers a `ToolCall`: the formatter copies text
blocks verbatim, so a text that imitates a rendered tool section is
re-extracted as an invocation that never happened. -/

set_option maxRecDepth 8000 in
/-- C1, counterexample: for the history `histC1`, whose messages contain
no `ToolUseBlock` whatsoever, `format_conversation` (with
`show_tool_summary = true`) renders the document `docC1`, and
`extract_tool_calls` on that document returns a nonempty record list —
not the empty list of tool invocations of the original history. -/
theorem C1_roundtrip_counterexample :
    (∀ e ∈ histC1, ∀ msg ∈ e.messages, ∀ bs, msg = Message.assistant bs →
      ∀ b ∈ bs, ∀ tid nm inp, b ≠ Block.toolUse tid nm inp) ∧
    format_conversation cfg8 (lit "ts") histC1 true = some docC1 ∧
    extract_tool_calls_text parse0 docC1 ≠ [] := by
  refine ⟨?_, rfl, ?_⟩
  · intro e he msg hmsg bs hbs b hb tid nm inp
    simp only [histC1, List.mem_singleton] at he
    subst he
    simp only [List.mem_singleton] at hmsg
    subst hmsg
    cases hbs
    simp only [List.mem_singleton] at hb
    subst hb
    simp
  · intro hc
    have hlen : (extract_tool_calls_text parse0 docC1).length = 1 := rfl
    rw [hc] at hlen
    simp at hlen

/-! ## Section decomposition of the `finditer` scanner -/

lemma findIterAux_skip (pat : Str) : ∀ (k : Nat) (s : Str) (i : Nat),
    findIterAux pat s i k = findIterAux pat (s.drop k) (i + k) 0 := by
  intro k
  induction k with
  | zero => intro s i; simp
  | succ k ih =>
    intro s i
    cases s with
    | nil => rfl
    | cons c t =>
      show findIterAux pat t (i + 1) k = _
      rw [ih t (i + 1)]
      show _ = findIterAux pat (t.drop k) (i + (k + 1)) 0
      congr 1
      omega

lemma findIterAux_pass (pat : Str) : ∀ (P X : Str) (i : Nat),
    (∀ j, j < P.length → ¬ pat <+: (P ++ X).drop j) →
    findIterAux pat (P ++ X) i 0 = findIterAux pat X (i + P.length) 0 := by
  intro P
  induction P with
  | nil => intro X i _; simp
  | cons c P' ih =>
    intro X i h
    have h0 : ¬ pat.isPrefixOf (c :: (P' ++ X)) := by
      intro hp
      exact h 0 (by simp) (by simpa using List.isPrefixOf_iff_prefix.mp hp)
    show (if pat.isPrefixOf (c :: (P' ++ X)) then
        i :: findIterAux pat (P' ++ X) (i + 1) (pat.length - 1)
      else findIterAux pat (P' ++ X) (i + 1) 0) = _
    rw [if_neg h0]
    rw [ih X (i + 1) (fun j hj => h (j + 1) (by simp; omega))]
    show _ = findIterAux pat X (i + (P'.length + 1)) 0
    rw [show i + 1 + P'.length = i + (P'.length + 1) from by omega]

lemma findIterAux_match {pat : Str} (hpat : pat ≠ []) (Y : Str) (i : Nat) :
    findIterAux pat (pat ++ Y) i 0 = i :: findIterAux pat Y (i + pat.length) 0 := by
  cases pat with
  | nil => exact absurd rfl hpat
  | cons c pt =>
    have hpre : (c :: pt).isPrefixOf (c :: (pt ++ Y)) := by
      rw [List.isPrefixOf_iff_prefix]
      exact List.prefix_append _ _
    show (if (c :: pt).isPrefixOf (c :: (pt ++ Y)) then
        i :: findIterAux (c :: pt) (pt ++ Y) (i + 1) ((c :: pt).length - 1)
      else findIterAux (c :: pt) (pt ++ Y) (i + 1) 0) = _
    rw [if_pos hpre, findIterAux_skip]
    simp only [List.length_cons, Nat.add_sub_cancel]
    rw [List.drop_left]
    rw [show i + 1 + pt.length = i + (pt.length + 1) from by omega]

lemma findIterAux_none {pat : Str} : ∀ (s : Str) (i : Nat),
    (∀ j, ¬ pat <+: s.drop j) → findIterAux pat s i 0 = [] := by
  intro s
  induction s with
  | nil => intro i _; rfl
  | cons c t ih =>
    intro i h
    have h0 : ¬ pat.isPrefixOf (c :: t) := by
      intro hp
      exact h 0 (by simpa using List.isPrefixOf_iff_prefix.mp hp)
    show (if pat.isPrefixOf (c :: t) then
        i :: findIterAux pat t (i + 1) (pat.length - 1)
      else findIterAux pat t (i + 1) 0) = _
    rw [if_neg h0]
    exact ih (i + 1) (fun j => h (j + 1))

/-- Splitting a drop across an append (the lemma form used below). -/
lemma drop_append_le {a b : Str} {j : Nat} (hj : j ≤ a.length) :
    (a ++ b).drop j = a.drop j ++ b := by
  rw [List.drop_append_eq_append_drop, Nat.sub_eq_zero_of_le hj, List.drop_zero]

/-- No occurrence of a border-free pattern can start inside the text
preceding an occurrence of the pattern itself. -/
lemma no_occ_before {pat D X : Str}
    (hnb : ∀ k, k < pat.length → 0 < k → ¬ pat.drop k <+: pat)
    (hD : ¬ pat <:+: D) : ∀ j, j < D.length → ¬ pat <+: (D ++ (pat ++ X)).drop j := by
  intro j hj hocc
  rw [drop_append_le (le_of_lt hj)] at hocc
  by_cases hfit : j + pat.length ≤ D.length
  · have hp : pat <+: D.drop j :=
      prefix_append_of_length_le hocc (by rw [List.length_drop]; omega)
    exact hD ( occ_iff_infix.mp ⟨j, hp⟩)
  · obtain ⟨u, hu⟩ := hocc
    have hk1 : 0 < (D.drop j).length := by rw [List.length_drop]; omega
    have hk2 : (D.drop j).length < pat.length := by rw [List.length_drop]; omega
    have hdrop : pat.drop (D.drop j).length ++ u = pat ++ X := by
      have h2 := congrArg (List.drop (D.drop j).length) hu
      rw [List.drop_append_eq_append_drop, Nat.sub_eq_zero_of_le (le_of_lt hk2),
        List.drop_zero, List.drop_left] at h2
      exact h2
    have hpref : pat.drop (D.drop j).length <+: pat :=
      prefix_append_of_length_le ⟨u, hdrop⟩ (by rw [List.length_drop]; omega)
    exact hnb _ hk2 hk1 hpref

lemma toolMarker_no_border :
    ∀ k, k < toolMarker.length → 0 < k → ¬ toolMarker.drop k <+: toolMarker := by
  decide

lemma nlFence_no_border :
    ∀ k, k < nlFence.length → 0 < k → ¬ nlFence.drop k <+: nlFence := by
  decide

/-- No occurrence of a pattern can start inside a region none of whose
characters equals the pattern's first character. -/
lemma no_occ_head_excluded {pat A X : Str} {c : Char} (hhd : pat.head? = some c)
    (hA : ∀ d ∈ A, d ≠ c) : ∀ j, j < A.length → ¬ pat <+: (A ++ X).drop j := by
  intro j hj hocc
  rw [drop_append_le (le_of_lt hj)] at hocc
  cases hAd : A.drop j with
  | nil =>
    have hlen := congrArg List.length hAd
    rw [List.length_drop] at hlen
    simp at hlen
    omega
  | cons d t =>
    have hd : d ∈ A := by
      have : d ∈ A.drop j := by rw [hAd]; exact List.mem_cons_self d t
      exact List.mem_of_mem_drop this
    obtain ⟨u, hu⟩ := hocc
    rw [hAd] at hu
    cases pat with
    | nil => simp at hhd
    | cons p pt =>
      have hpc : p = c := by simpa using hhd
      have : p = d := by
        have := congrArg List.head? hu
        simpa using this
      exact hA d hd (by rw [← this, hpc])

lemma positionsFrom_length : ∀ (gs : List (SInv × Str)) (p : Nat),
    (positionsFrom p gs).length = gs.length := by
  intro gs
  induction gs with
  | nil => intro p; rfl
  | cons g gs ih => intro p; simp [positionsFrom, ih]

lemma secsStr_cons (g : SInv × Str) (gs : List (SInv × Str)) :
    secsStr (g :: gs) = toolMarker ++ (g.2 ++ secsStr gs) := by
  simp [secsStr, List.append_assoc]

lemma findIterAux_sections : ∀ (gs : List (SInv × Str)) (P0 : Str) (i : Nat),
    ¬ toolMarker <:+: P0 → (∀ g ∈ gs, ¬ toolMarker <:+: g.2) →
    findIterAux toolMarker (P0 ++ secsStr gs) i 0 = positionsFrom (i + P0.length) gs := by
  intro gs
  induction gs with
  | nil =>
    intro P0 i hP _
    rw [show secsStr [] = [] from rfl, List.append_nil]
    exact findIterAux_none P0 i (fun j hj => hP ( occ_iff_infix.mp ⟨j, hj⟩))
  | cons g gs ih =>
    intro P0 i hP hb
    rw [secsStr_cons]
    rw [findIterAux_pass toolMarker P0 _ i (no_occ_before toolMarker_no_border hP)]
    rw [findIterAux_match (by decide) _ (i + P0.length)]
    rw [ih g.2 (i + P0.length + toolMarker.length) (hb g (List.mem_cons_self g gs))
      (fun g' hg' => hb g' (List.mem_cons_of_mem g hg'))]
    rfl

lemma findIter_sections {gs : List (SInv × Str)} {P0 : Str}
    (hP : ¬ toolMarker <:+: P0) (hb : ∀ g ∈ gs, ¬ toolMarker <:+: g.2) :
    findIter toolMarker (P0 ++ secsStr gs) = positionsFrom P0.length gs := by
  show findIterAux toolMarker (P0 ++ secsStr gs) 0 0 = _
  rw [findIterAux_sections gs P0 0 hP hb, Nat.zero_add]

lemma sections_slice : ∀ (gs : List (SInv × Str)) (P0 : Str) (i : Nat) (hi : i < gs.length),
    pySlice (P0 ++ secsStr gs)
      (((positionsFrom P0.length gs).get? i).getD 0)
      (((positionsFrom P0.length gs).get? (i + 1)).getD (P0 ++ secsStr gs).length) =
      toolMarker ++ (gs.get ⟨i, hi⟩).2 := by
  intro gs
  induction gs with
  | nil => intro P0 i hi; simp at hi
  | cons g gs ih =>
    intro P0 i hi
    cases i with
    | zero =>
      cases gs with
      | nil =>
        show pySlice (P0 ++ secsStr [g]) P0.length (P0 ++ secsStr [g]).length = _
        unfold pySlice
        rw [List.take_length, secsStr_cons, List.drop_left]
        simp [secsStr]
      | cons g' gs' =>
        show pySlice (P0 ++ secsStr (g :: g' :: gs')) P0.length
          (P0.length + toolMarker.length + g.2.length) = toolMarker ++ g.2
        rw [secsStr_cons, show P0 ++ (toolMarker ++ (g.2 ++ secsStr (g' :: gs'))) =
          (P0 ++ (toolMarker ++ g.2)) ++ secsStr (g' :: gs') from by
            simp only [List.append_assoc]]
        unfold pySlice
        rw [List.take_left' (by simp only [List.length_append]; omega)]
        rw [List.drop_left]
    | succ i' =>
      have hstep : P0 ++ secsStr (g :: gs) = (P0 ++ (toolMarker ++ g.2)) ++ secsStr gs := by
        rw [secsStr_cons]; simp [List.append_assoc]
      have hpos : positionsFrom P0.length (g :: gs) =
          P0.length :: positionsFrom ((P0 ++ (toolMarker ++ g.2)).length) gs := by
        show P0.length :: positionsFrom (P0.length + toolMarker.length + g.2.length) gs = _
        congr 2
        simp only [List.length_append]
        omega
      rw [hstep, hpos]
      simp only [List.get?_cons_succ]
      have hi' : i' < gs.length := by simpa using hi
      rw [show (g :: gs).get ⟨i' + 1, hi⟩ = gs.get ⟨i', hi'⟩ from rfl]
      exact ih (P0 ++ (toolMarker ++ g.2)) i' hi'

lemma map_filterMap_out {α β γ : Type} (f : α → Option β) (g : β → γ) : ∀ l : List α,
    (l.filterMap f).map g = l.flatMap (fun a => ((f a).map g).toList) := by
  intro l
  induction l with
  | nil => rfl
  | cons a l ih =>
    cases hfa : f a with
    | none => simp [List.filterMap_cons_none hfa, hfa, ih]
    | some b => simp [List.filterMap_cons_some hfa, hfa, ih]

lemma range_flatMap_get {α γ : Type} : ∀ (l : List α) (F : Nat → List γ) (G : α → List γ),
    (∀ i (h : i < l.length), F i = G (l.get ⟨i, h⟩)) →
    (List.range l.length).flatMap F = l.flatMap G := by
  intro l
  induction l with
  | nil => intro F G _; rfl
  | cons a l ih =>
    intro F G h
    rw [List.length_cons, List.range_succ_eq_map]
    simp only [List.flatMap_cons]
    rw [List.flatMap_map]
    rw [ih (fun i => F (i + 1)) G (fun i hi => by
      have := h (i + 1) (by simpa using Nat.succ_lt_succ hi)
      simpa [Nat.succ_eq_add_one] using this)]
    rw [h 0 (by simp)]
    rfl

lemma sectionToolCall_proj (parse : Str → Option Json) (text : Str)
    (positions : List Nat) (i : Nat) :
    ((sectionToolCall parse text positions i).map
        (fun tc => (tc.tool_name, tc.input_data))).toList =
      secOut parse (extractSection text positions i) := by
  simp only [sectionToolCall, secOut]
  cases reSearchLine toolNamePre (extractSection text positions i) with
  | none => rfl
  | some nm =>
    cases reSearchLazy inputPre nlFence (extractSection text positions i) with
    | none => rfl
    | some ij =>
      cases reSearchLazy playPre nlFence (extractSection text positions i) with
      | none => rfl
      | some pc =>
        cases hp : parse (pyStrip ij) with
        | none => simp [hp]
        | some d => simp [hp]

lemma extract_proj_eq (parse : Str → Option Json) {P0 : Str} {gs : List (SInv × Str)}
    (hP : ¬ toolMarker <:+: P0) (hb : ∀ g ∈ gs, ¬ toolMarker <:+: g.2) :
    (extract_tool_calls_text parse (P0 ++ secsStr gs)).map
        (fun tc => (tc.tool_name, tc.input_data)) =
      gs.flatMap (fun g => secOut parse (toolMarker ++ g.2)) := by
  simp only [extract_tool_calls_text]
  rw [findIter_sections hP hb]
  rw [map_filterMap_out]
  rw [positionsFrom_length gs P0.length]
  apply range_flatMap_get
  intro i hi
  rw [sectionToolCall_proj]
  simp only [extractSection]
  rw [sections_slice gs P0 i hi]

/-! ## Grouping the rendered event stream into sections -/

lemma groupEvents_append : ∀ (xs ys : List Ev),
    groupEvents (xs ++ ys) = groupsCat (groupEvents xs) (groupEvents ys) := by
  intro xs
  induction xs with
  | nil =>
    intro ys
    show groupEvents ys = groupsCat ([], []) (groupEvents ys)
    cases hys : groupEvents ys with
    | mk p' gs' => simp [groupsCat]
  | cons e xs ih =>
    intro ys
    cases e with
    | plain s =>
      show (s ++ (groupEvents (xs ++ ys)).1, (groupEvents (xs ++ ys)).2) =
        groupsCat (s ++ (groupEvents xs).1, (groupEvents xs).2) (groupEvents ys)
      rw [ih ys]
      cases hxs : groupEvents xs with
      | mk px gsx =>
        cases hys : groupEvents ys with
        | mk py gsy =>
          cases gsx with
          | nil => simp [groupsCat, List.append_assoc]
          | cons g gs => simp [groupsCat]
    | head inv =>
      show ([], (inv, (groupEvents (xs ++ ys)).1) :: (groupEvents (xs ++ ys)).2) =
        groupsCat ([], (inv, (groupEvents xs).1) :: (groupEvents xs).2) (groupEvents ys)
      rw [ih ys]
      cases hxs : groupEvents xs with
      | mk px gsx =>
        cases hys : groupEvents ys with
        | mk py gsy =>
          cases gsx with
          | nil => simp [groupsCat, appendLastBody]
          | cons g gs => simp [groupsCat, appendLastBody]

lemma appendLastBody_map_fst : ∀ (gs : List (SInv × Str)) (q : Str),
    (appendLastBody gs q).map Prod.fst = gs.map Prod.fst := by
  intro gs
  induction gs with
  | nil => intro q; rfl
  | cons g gs ih =>
    intro q
    cases gs with
    | nil => cases g; rfl
    | cons g' gs' => simp [appendLastBody, ih]

lemma goodGroups_appendLastBody {gs : List (SInv × Str)} (q : Str)
    (h : goodGroups gs) : goodGroups (appendLastBody gs q) := by
  induction gs with
  | nil => intro g hg; cases hg
  | cons g0 gs ih =>
    cases gs with
    | nil =>
      cases g0 with
      | mk inv b =>
        intro g hg
        simp only [appendLastBody, List.mem_singleton] at hg
        subst hg
        obtain ⟨q0, hq0⟩ := h (inv, b) (List.mem_singleton.mpr rfl)
        exact ⟨q0 ++ q, by simp at hq0; simp [hq0, List.append_assoc]⟩
    | cons g' gs' =>
      intro g hg
      simp only [appendLastBody, List.mem_cons] at hg
      cases hg with
      | inl hg => exact h g (by rw [hg]; exact List.mem_cons_self _ _)
      | inr hg =>
        exact ih (fun x hx => h x (List.mem_cons_of_mem _ hx)) g hg

lemma goodGroups_cat {x y : Str × List (SInv × Str)}
    (hx : goodGroups x.2) (hy : goodGroups y.2) : goodGroups (groupsCat x y).2 := by
  cases x with
  | mk px gsx =>
    cases y with
    | mk py gsy =>
      cases gsx with
      | nil => simpa [groupsCat] using hy
      | cons g gs =>
        show goodGroups (appendLastBody (g :: gs) py ++ gsy)
        intro g' hg'
        rcases List.mem_append.mp hg' with hm | hm
        · exact goodGroups_appendLastBody py hx g' hm
        · exact hy g' hm

lemma groupsCat_map_fst (x y : Str × List (SInv × Str)) :
    (groupsCat x y).2.map Prod.fst = x.2.map Prod.fst ++ y.2.map Prod.fst := by
  cases x with
  | mk px gsx =>
    cases y with
    | mk py gsy =>
      cases gsx with
      | nil => simp [groupsCat]
      | cons g gs => simp [groupsCat, appendLastBody_map_fst]

lemma groupEvents_items : ∀ items : List SItem,
    (groupEvents (items.flatMap itemEvents)).2.map Prod.fst = itemsInvs items ∧
    goodGroups (groupEvents (items.flatMap itemEvents)).2 := by
  intro items
  induction items with
  | nil => exact ⟨rfl, fun g hg => by cases hg⟩
  | cons it items ih =>
    cases it with
    | say t =>
      have hev : (SItem.say t :: items).flatMap itemEvents =
          .plain (lineStr t ++ lineStr []) :: items.flatMap itemEvents := rfl
      rw [hev]
      show ((groupEvents (items.flatMap itemEvents)).2.map Prod.fst =
        itemsInvs (SItem.say t :: items)) ∧ _
      exact ⟨by rw [ih.1]; rfl, ih.2⟩
    | call inv =>
      have hev : (SItem.call inv :: items).flatMap itemEvents =
          .head inv :: .plain (callChunk inv) :: items.flatMap itemEvents := rfl
      rw [hev]
      constructor
      · show inv :: (callChunk inv ++ (groupEvents (items.flatMap itemEvents)).1,
          (groupEvents (items.flatMap itemEvents)).2).2.map Prod.fst = _
        rw [ih.1]
        rfl
      · intro g hg
        simp only [groupEvents, List.mem_cons] at hg
        cases hg with
        | inl hg =>
          refine ⟨(groupEvents (items.flatMap itemEvents)).1, ?_⟩
          rw [hg]
        | inr hg => exact ih.2 g hg

lemma groupEvents_record (cfg : FormatterCfg) (sts : Bool) (r : SRecord) :
    (groupEvents (recordEvents cfg sts r)).2.map Prod.fst = recordInvs r ∧
    goodGroups (groupEvents (recordEvents cfg sts r)).2 := by
  have hev : recordEvents cfg sts r =
      .plain (flatLines (recPreLines cfg r)) ::
        (r.items.flatMap itemEvents ++ [.plain (flatLines (recPostLines sts r))]) := rfl
  rw [hev]
  have hmid := groupEvents_append (r.items.flatMap itemEvents)
    [.plain (flatLines (recPostLines sts r))]
  have hpost : groupEvents [Ev.plain (flatLines (recPostLines sts r))] =
      (flatLines (recPostLines sts r), []) := by simp [groupEvents]
  have hitems := groupEvents_items r.items
  constructor
  · show (groupEvents (r.items.flatMap itemEvents ++
      [.plain (flatLines (recPostLines sts r))])).2.map Prod.fst = _
    rw [hmid, hpost, groupsCat_map_fst, hitems.1]
    simp [recordInvs, itemsInvs]
  · show goodGroups (groupEvents (r.items.flatMap itemEvents ++
      [.plain (flatLines (recPostLines sts r))])).2
    rw [hmid]
    exact goodGroups_cat hitems.2 (by rw [hpost]; intro g hg; cases hg)

lemma groupEvents_hist (cfg : FormatterCfg) (now : Str) (sts : Bool) :
    ∀ hist : List SRecord,
    (groupEvents (histEvents cfg now sts hist)).2.map Prod.fst = allInvs hist ∧
    goodGroups (groupEvents (histEvents cfg now sts hist)).2 := by
  have haux : ∀ hist : List SRecord,
      (groupEvents (hist.flatMap (recordEvents cfg sts))).2.map Prod.fst = allInvs hist ∧
      goodGroups (groupEvents (hist.flatMap (recordEvents cfg sts))).2 := by
    intro hist
    induction hist with
    | nil => exact ⟨rfl, fun g hg => by cases hg⟩
    | cons r hist ih =>
      rw [List.flatMap_cons, groupEvents_append]
      constructor
      · rw [groupsCat_map_fst, (groupEvents_record cfg sts r).1, ih.1]
        rfl
      · exact goodGroups_cat (groupEvents_record cfg sts r).2 ih.2
  intro hist
  have hev : histEvents cfg now sts hist =
      .plain (flatLines (headerLines cfg now)) :: hist.flatMap (recordEvents cfg sts) := rfl
  rw [hev]
  constructor
  · show (groupEvents (hist.flatMap (recordEvents cfg sts))).2.map Prod.fst = _
    exact (haux hist).1
  · exact (haux hist).2

lemma flatEvents_group : ∀ evs : List Ev,
    flatEvents evs = (groupEvents evs).1 ++ secsStr (groupEvents evs).2 := by
  intro evs
  induction evs with
  | nil => rfl
  | cons e evs ih =>
    cases e with
    | plain s =>
      show s ++ flatEvents evs = (s ++ (groupEvents evs).1) ++ secsStr (groupEvents evs).2
      rw [ih, List.append_assoc]
    | head inv =>
      show toolMarker ++ flatEvents evs =
        [] ++ secsStr ((inv, (groupEvents evs).1) :: (groupEvents evs).2)
      rw [ih, List.nil_append, secsStr_cons]

lemma trimLast_map_fst : ∀ gs : List (SInv × Str),
    (trimLast gs).map Prod.fst = gs.map Prod.fst := by
  intro gs
  induction gs with
  | nil => rfl
  | cons g gs ih =>
    cases gs with
    | nil => cases g; rfl
    | cons g' gs' => simp [trimLast, ih]

lemma trimLast_mem : ∀ {gs : List (SInv × Str)} {g' : SInv × Str},
    g' ∈ trimLast gs →
    ∃ g ∈ gs, g'.1 = g.1 ∧ (g'.2 = g.2 ∨ g'.2 = g.2.dropLast) := by
  intro gs
  induction gs with
  | nil => intro g' hg'; cases hg'
  | cons g gs ih =>
    intro g' hg'
    cases gs with
    | nil =>
      cases g with
      | mk inv b =>
        simp only [trimLast, List.mem_singleton] at hg'
        subst hg'
        exact ⟨(inv, b), List.mem_singleton.mpr rfl, rfl, Or.inr rfl⟩
    | cons g2 gs2 =>
      simp only [trimLast, List.mem_cons] at hg'
      cases hg' with
      | inl h => exact ⟨g, List.mem_cons_self _ _, by rw [h], by rw [h]; exact Or.inl rfl⟩
      | inr h =>
        obtain ⟨g0, hg0, h1, h2⟩ := ih h
        exact ⟨g0, List.mem_cons_of_mem _ hg0, h1, h2⟩

lemma callChunk_ne_nil (inv : SInv) : callChunk inv ≠ [] := by
  intro h
  have := congrArg List.length h
  simp [callChunk, lineStr] at this

lemma secsStr_ne_nil {g : SInv × Str} {gs : List (SInv × Str)} :
    secsStr (g :: gs) ≠ [] := by
  rw [secsStr_cons]
  intro h
  have := congrArg List.length h
  simp [toolMarker, lit] at this

lemma secsStr_trimLast : ∀ {gs : List (SInv × Str)}, gs ≠ [] →
    (∀ g ∈ gs, g.2 ≠ []) → secsStr (trimLast gs) = (secsStr gs).dropLast := by
  intro gs
  induction gs with
  | nil => intro h; exact absurd rfl h
  | cons g gs ih =>
    intro _ hne
    cases gs with
    | nil =>
      cases g with
      | mk inv b =>
        show secsStr [(inv, b.dropLast)] = _
        have hb : b ≠ [] := hne (inv, b) (List.mem_singleton.mpr rfl)
        simp only [secsStr, List.flatMap_cons, List.flatMap_nil, List.append_nil]
        rw [List.dropLast_append_of_ne_nil _ hb]
    | cons g2 gs2 =>
      show secsStr (g :: trimLast (g2 :: gs2)) = _
      rw [secsStr_cons, secsStr_cons,
        ih (by simp) (fun x hx => hne x (List.mem_cons_of_mem _ hx))]
      rw [← List.append_assoc, ← List.append_assoc,
        List.dropLast_append_of_ne_nil _ (secsStr_ne_nil)]

/-! ## The formatter on canonical histories -/

lemma toolResultLines_ok {c : Json} (hok : contentOK c = true)
    (m : List (Str × Str)) (tid : Str) :
    toolResultLines m tid c = some (resultLines (resolveName m tid) c) := by
  cases c with
  | null => rfl
  | bool b => rfl
  | num n => rfl
  | str s => rfl
  | obj kvs => rfl
  | arr es =>
    cases es with
    | nil => rfl
    | cons first rest =>
      cases first with
      | null => rfl
      | bool b => rfl
      | num n => rfl
      | str s => rfl
      | arr es2 => rfl
      | obj kvs =>
        have hceq : contentOK (.arr (.obj kvs :: rest)) =
            (match dictGet kvs (lit "text") with
             | some v => isStrB v
             | none => true) := rfl
        cases hd : dictGet kvs (lit "text") with
        | none => simp [toolResultLines, resultLines, resTextC, hd]
        | some v =>
          cases v with
          | str t => simp [toolResultLines, resultLines, resTextC, hd]
          | null => rw [hceq, hd] at hok; simp [isStrB] at hok
          | bool b => rw [hceq, hd] at hok; simp [isStrB] at hok
          | num n => rw [hceq, hd] at hok; simp [isStrB] at hok
          | arr es2 => rw [hceq, hd] at hok; simp [isStrB] at hok
          | obj kvs2 => rw [hceq, hd] at hok; simp [isStrB] at hok

lemma resolveName_dictSet (m : List (Str × Str)) (tid nm : Str) :
    resolveName (dictSet m tid nm) tid = nm := by
  unfold resolveName
  rw [dictGetStr_dictSet]
  simp

lemma processMessages_items : ∀ (items : List SItem) (m : List (Str × Str)),
    (∀ inv ∈ itemsInvs items, resultOK inv) →
    processMessages m (items.flatMap itemMessages) =
      some (items.flatMap itemLines, recMapFrom m items) := by
  intro items
  induction items with
  | nil => intro m _; rfl
  | cons it items ih =>
    intro m hok
    cases it with
    | say t =>
      have hok' : ∀ inv ∈ itemsInvs items, resultOK inv := by
        intro inv hinv
        exact hok inv (by simpa [itemsInvs] using hinv)
      rw [show (SItem.say t :: items).flatMap itemMessages =
        .assistant [.text t] :: items.flatMap itemMessages from rfl]
      rw [processMessages_assistant_cons]
      rw [show ([Block.text t]).foldl assistantStep ([], m) = ([t, []], m) from rfl]
      rw [ih m hok']
      rfl
    | call inv =>
      have hmem : inv ∈ itemsInvs (SItem.call inv :: items) := by
        simp [itemsInvs]
      have hok' : ∀ inv' ∈ itemsInvs items, resultOK inv' := by
        intro inv' hinv'
        refine hok inv' ?_
        simp only [itemsInvs, List.filterMap_cons]
        exact List.mem_cons_of_mem _ (by simpa [itemsInvs] using hinv')
      have hro : resultOK inv := hok inv hmem
      cases hres : inv.result with
      | none =>
        rw [show (SItem.call inv :: items).flatMap itemMessages =
          .assistant [.toolUse inv.tid inv.name inv.input] ::
            ((match inv.result with
              | none => []
              | some (c, ie) => [Message.user [.toolResult inv.tid c ie]]) ++
              items.flatMap itemMessages) from by
          simp [itemMessages]]
        rw [hres]
        rw [show (([] : List Message) ++ items.flatMap itemMessages) =
          items.flatMap itemMessages from by simp]
        rw [processMessages_assistant_cons]
        rw [show ([Block.toolUse inv.tid inv.name inv.input]).foldl assistantStep ([], m) =
          (toolUseLines inv.name inv.input, dictSet m inv.tid inv.name) from rfl]
        rw [ih (dictSet m inv.tid inv.name) hok']
        show some (toolUseLines inv.name inv.input ++ items.flatMap itemLines,
          recMapFrom (dictSet m inv.tid inv.name) items) = _
        rw [show (SItem.call inv :: items).flatMap itemLines =
          (toolUseLines inv.name inv.input ++
            (match inv.result with
             | none => []
             | some (c, _) => resultLines inv.name c)) ++ items.flatMap itemLines from by
          simp [itemLines]]
        rw [hres]
        simp [recMapFrom]
      | some cie =>
        cases cie with
        | mk c ie =>
          have hcok : contentOK c = true := by
            have := hro
            unfold resultOK at this
            rw [hres] at this
            exact this
          rw [show (SItem.call inv :: items).flatMap itemMessages =
            .assistant [.toolUse inv.tid inv.name inv.input] ::
              ((match inv.result with
                | none => []
                | some (c, ie) => [Message.user [.toolResult inv.tid c ie]]) ++
                items.flatMap itemMessages) from by
            simp [itemMessages]]
          rw [hres]
          rw [show ([Message.user [.toolResult inv.tid c ie]] ++
            items.flatMap itemMessages) =
            Message.user [.toolResult inv.tid c ie] :: items.flatMap itemMessages from rfl]
          rw [processMessages_assistant_cons]
          rw [show ([Block.toolUse inv.tid inv.name inv.input]).foldl assistantStep ([], m) =
            (toolUseLines inv.name inv.input, dictSet m inv.tid inv.name) from rfl]
          rw [processMessages_user_cons]
          rw [show ([Block.toolResult inv.tid c ie]).foldl
            (userStep (dictSet m inv.tid inv.name)) (some []) =
            (match toolResultLines (dictSet m inv.tid inv.name) inv.tid c with
             | none => none
             | some ls => some ([] ++ ls)) from rfl]
          rw [toolResultLines_ok hcok]
          rw [resolveName_dictSet]
          rw [ih (dictSet m inv.tid inv.name) hok']
          show some (toolUseLines inv.name inv.input ++
            (([] ++ resultLines inv.name c) ++ items.flatMap itemLines),
            recMapFrom (dictSet m inv.tid inv.name) items) = _
          rw [show (SItem.call inv :: items).flatMap itemLines =
            (toolUseLines inv.name inv.input ++
              (match inv.result with
               | none => []
               | some (c, _) => resultLines inv.name c)) ++ items.flatMap itemLines from by
            simp [itemLines]]
          rw [hres]
          simp [recMapFrom, List.append_assoc]

lemma entryLines_canonical (cfg : FormatterCfg) (sts : Bool) (r : SRecord)
    (hok : ∀ inv ∈ recordInvs r, resultOK inv) :
    entryLines cfg sts (toEntry r) = some (recLines cfg sts r) := by
  have hpm := processMessages_items r.items [] (by
    intro inv hinv
    exact hok inv (by simpa [recordInvs, itemsInvs] using hinv))
  unfold entryLines
  rw [show (toEntry r).messages = r.items.flatMap itemMessages from rfl]
  rw [hpm]
  simp only [toEntry]
  simp [recLines, recPreLines, recPostLines, List.append_assoc]

lemma entryLinesAll_canonical (cfg : FormatterCfg) (sts : Bool) : ∀ hist : List SRecord,
    (∀ inv ∈ allInvs hist, resultOK inv) →
    entryLinesAll cfg sts (hist.map toEntry) = some (hist.flatMap (recLines cfg sts)) := by
  intro hist
  induction hist with
  | nil => intro _; rfl
  | cons r hist ih =>
    intro hok
    rw [List.map_cons]
    show (match entryLines cfg sts (toEntry r), entryLinesAll cfg sts (hist.map toEntry) with
      | some ls, some rs => some (ls ++ rs)
      | _, _ => none) = _
    rw [entryLines_canonical cfg sts r (fun inv hinv => hok inv (by
      simp only [allInvs, List.flatMap_cons]
      exact List.mem_append.mpr (Or.inl hinv)))]
    rw [ih (fun inv hinv => hok inv (by
      simp only [allInvs, List.flatMap_cons]
      exact List.mem_append.mpr (Or.inr hinv)))]
    rfl

lemma formatLines_canonical (cfg : FormatterCfg) (now : Str) (sts : Bool)
    (hist : List SRecord) (hok : ∀ inv ∈ allInvs hist, resultOK inv) :
    formatConversationLines cfg now (hist.map toEntry) sts =
      some (headerLines cfg now ++ hist.flatMap (recLines cfg sts)) := by
  unfold formatConversationLines
  rw [entryLinesAll_canonical cfg sts hist hok]
  rfl

lemma flatLines_append (A B : List Str) :
    flatLines (A ++ B) = flatLines A ++ flatLines B := by
  simp [flatLines]

lemma flatEvents_append (A B : List Ev) :
    flatEvents (A ++ B) = flatEvents A ++ flatEvents B := by
  simp [flatEvents]

lemma itemFlat_eq : ∀ it : SItem, flatEvents (itemEvents it) = flatLines (itemLines it) := by
  intro it
  cases it with
  | say t =>
    simp [itemEvents, itemLines, flatEvents, evStr, flatLines, lineStr]
  | call inv =>
    cases hres : inv.result with
    | none =>
      simp only [itemEvents, itemLines, flatEvents, evStr, List.flatMap_cons,
        List.flatMap_nil, List.append_nil, callChunk, hres, toolUseLines, flatLines,
        lineStr, List.append_assoc, List.cons_append, List.nil_append,
        List.singleton_append]
      rw [show (lit "#### Tool: " : Str) = toolMarker ++ lit " " from rfl]
      simp only [List.append_assoc]
    | some cie =>
      cases cie with
      | mk c ie =>
        cases hrt : resTextC c with
        | none =>
          simp only [itemEvents, itemLines, flatEvents, evStr, List.flatMap_cons,
            List.flatMap_nil, List.append_nil, callChunk, hres, hrt, toolUseLines,
            resultLines, flatLines, lineStr, List.append_assoc, List.cons_append,
            List.nil_append, List.singleton_append]
          rw [show (lit "#### Tool: " : Str) = toolMarker ++ lit " " from rfl]
          simp only [List.append_assoc]
        | some t =>
          simp only [itemEvents, itemLines, flatEvents, evStr, List.flatMap_cons,
            List.flatMap_nil, List.append_nil, callChunk, hres, hrt, toolUseLines,
            resultLines, flatLines, lineStr, List.append_assoc, List.cons_append,
            List.nil_append, List.singleton_append]
          rw [show (lit "#### Tool: " : Str) = toolMarker ++ lit " " from rfl]
          simp only [List.append_assoc]

lemma itemsFlat_eq : ∀ items : List SItem,
    flatEvents (items.flatMap itemEvents) = flatLines (items.flatMap itemLines) := by
  intro items
  induction items with
  | nil => rfl
  | cons it items ih =>
    rw [List.flatMap_cons, List.flatMap_cons, flatEvents_append, flatLines_append,
      itemFlat_eq, ih]

lemma recordFlat_eq (cfg : FormatterCfg) (sts : Bool) (r : SRecord) :
    flatEvents (recordEvents cfg sts r) = flatLines (recLines cfg sts r) := by
  rw [show recordEvents cfg sts r = [Ev.plain (flatLines (recPreLines cfg r))] ++
    r.items.flatMap itemEvents ++ [Ev.plain (flatLines (recPostLines sts r))] from by
      simp [recordEvents]]
  rw [flatEvents_append, flatEvents_append, itemsFlat_eq]
  rw [show flatEvents [Ev.plain (flatLines (recPreLines cfg r))] =
    flatLines (recPreLines cfg r) from by simp [flatEvents, evStr]]
  rw [show flatEvents [Ev.plain (flatLines (recPostLines sts r))] =
    flatLines (recPostLines sts r) from by simp [flatEvents, evStr]]
  unfold recLines
  rw [flatLines_append, flatLines_append]

lemma histFlat_eq (cfg : FormatterCfg) (now : Str) (sts : Bool) (hist : List SRecord) :
    flatEvents (histEvents cfg now sts hist) =
      flatLines (headerLines cfg now ++ hist.flatMap (recLines cfg sts)) := by
  rw [show histEvents cfg now sts hist = [Ev.plain (flatLines (headerLines cfg now))] ++
    hist.flatMap (recordEvents cfg sts) from rfl]
  rw [flatEvents_append, flatLines_append]
  congr 1
  · simp [flatEvents, evStr]
  · induction hist with
    | nil => rfl
    | cons r hist ih =>
      rw [List.flatMap_cons, List.flatMap_cons, flatEvents_append, flatLines_append,
        recordFlat_eq, ih]

lemma joinNl_cons_ne (l x : Str) (xs : List Str) :
    joinNl (l :: x :: xs) = l ++ '\n' :: joinNl (x :: xs) := rfl

lemma joinNl_flat : ∀ M : List Str, joinNl (M ++ [[]]) = flatLines M := by
  intro M
  induction M with
  | nil => rfl
  | cons l M ih =>
    rw [List.cons_append]
    cases hM : M ++ [[]] with
    | nil => exact absurd hM (by simp)
    | cons x xs =>
      rw [joinNl_cons_ne, ← hM, ih]
      simp [flatLines, lineStr, List.append_assoc]

lemma recLines_split (cfg : FormatterCfg) (sts : Bool) (r : SRecord) :
    recLines cfg sts r =
      (recPreLines cfg r ++ r.items.flatMap itemLines ++
        ((if sts && !r.outputs.isEmpty then summaryLines (recMapFrom [] r.items) r.outputs
          else []) ++ [lit "---"])) ++ [[]] := by
  simp [recLines, recPostLines, List.append_assoc]

lemma flatMap_recLines_split (cfg : FormatterCfg) (sts : Bool) :
    ∀ (hist : List SRecord) (r : SRecord),
    ∃ Y, (r :: hist).flatMap (recLines cfg sts) = Y ++ [[]] := by
  intro hist
  induction hist with
  | nil =>
    intro r
    exact ⟨recPreLines cfg r ++ r.items.flatMap itemLines ++
      ((if sts && !r.outputs.isEmpty then summaryLines (recMapFrom [] r.items) r.outputs
        else []) ++ [lit "---"]),
      by rw [List.flatMap_cons, List.flatMap_nil, List.append_nil, recLines_split]⟩
  | cons r2 hist2 ih =>
    intro r
    obtain ⟨Y, hY⟩ := ih r2
    exact ⟨recLines cfg sts r ++ Y, by rw [List.flatMap_cons, hY, List.append_assoc]⟩

lemma headerLines_split (cfg : FormatterCfg) (now : Str) :
    headerLines cfg now =
      [lit "# " ++ cfg.log_title, [], lit "**Generated:** " ++ now,
        lit "**Test File:** " ++ cfg.test_file_path, [], lit "---"] ++ [[]] := rfl

lemma format_flat (cfg : FormatterCfg) (now : Str) (sts : Bool) (hist : List SRecord)
    (hok : ∀ inv ∈ allInvs hist, resultOK inv) :
    format_conversation cfg now (hist.map toEntry) sts =
      some ((flatEvents (histEvents cfg now sts hist)).dropLast) := by
  unfold format_conversation
  rw [formatLines_canonical cfg now sts hist hok]
  show some (joinNl (headerLines cfg now ++ hist.flatMap (recLines cfg sts))) = _
  obtain ⟨Y, hY⟩ : ∃ Y, headerLines cfg now ++ hist.flatMap (recLines cfg sts) =
      Y ++ [[]] := by
    cases hist with
    | nil =>
      exact ⟨[lit "# " ++ cfg.log_title, [], lit "**Generated:** " ++ now,
        lit "**Test File:** " ++ cfg.test_file_path, [], lit "---"],
        by rw [List.flatMap_nil, List.append_nil, headerLines_split]⟩
    | cons r hist2 =>
      obtain ⟨Y, hY⟩ := flatMap_recLines_split cfg sts hist2 r
      exact ⟨headerLines cfg now ++ Y, by rw [hY, ← List.append_assoc]⟩
  rw [hY, joinNl_flat, histFlat_eq, hY, flatLines_append]
  rw [show flatLines [([] : Str)] = ['\n'] from rfl]
  simp

/-! ## The extractor's searches on one rendered section -/

lemma reSearchLine_cons (pre : Str) (c : Char) (t : Str) :
    reSearchLine pre (c :: t) =
      if pre.isPrefixOf (c :: t) then
        (if ((c :: t).drop pre.length).takeWhile (· ≠ '\n') = [] then
          reSearchLine pre t
        else some (((c :: t).drop pre.length).takeWhile (· ≠ '\n')))
      else reSearchLine pre t := rfl

lemma takeWhile_nl : ∀ {nm : Str}, (∀ c ∈ nm, c ≠ '\n') → ∀ R : Str,
    (nm ++ '\n' :: R).takeWhile (· ≠ '\n') = nm := by
  intro nm
  induction nm with
  | nil => intro _ R; simp [List.takeWhile_cons]
  | cons c nm ih =>
    intro h R
    rw [List.cons_append, List.takeWhile_cons]
    rw [if_pos (by simpa using h c (List.mem_cons_self c nm))]
    rw [ih (fun d hd => h d (List.mem_cons_of_mem c hd)) R]

lemma reSearchLine_pre {pre nm R : Str} (hnm : nm ≠ [])
    (hnl : ∀ c ∈ nm, c ≠ '\n') :
    reSearchLine pre (pre ++ (nm ++ '\n' :: R)) = some nm := by
  have hcap : ((pre ++ (nm ++ '\n' :: R)).drop pre.length).takeWhile (· ≠ '\n') = nm := by
    rw [List.drop_left]
    exact takeWhile_nl hnl R
  obtain ⟨c, t, hct⟩ : ∃ c t, pre ++ (nm ++ '\n' :: R) = c :: t := by
    cases hs : pre ++ (nm ++ '\n' :: R) with
    | nil =>
      have := congrArg List.length hs
      simp at this
    | cons c t => exact ⟨c, t, rfl⟩
  rw [hct, reSearchLine_cons, ← hct]
  rw [if_pos (by rw [List.isPrefixOf_iff_prefix]; exact List.prefix_append _ _)]
  rw [hcap, if_neg hnm]

lemma reSearchLazy_mid {A D W : Str} (hhd : ∀ d ∈ A, d ≠ '*')
    (hD : ¬ nlFence <:+: D) :
    reSearchLazy inputPre nlFence (A ++ (inputPre ++ (D ++ (nlFence ++ W)))) = some D := by
  have hfind : pyFind inputPre (A ++ (inputPre ++ (D ++ (nlFence ++ W)))) =
      some A.length := by
    rw [pyFind_eq_some_iff]
    refine ⟨?_, ?_⟩
    · rw [List.drop_left]
      exact List.prefix_append _ _
    · exact fun j hj =>
        no_occ_head_excluded (show inputPre.head? = some '*' from rfl) hhd j hj
  have hdrop : (A ++ (inputPre ++ (D ++ (nlFence ++ W)))).drop
      (A.length + inputPre.length) = D ++ (nlFence ++ W) := by
    rw [show A ++ (inputPre ++ (D ++ (nlFence ++ W))) =
      (A ++ inputPre) ++ (D ++ (nlFence ++ W)) from by rw [List.append_assoc]]
    exact List.drop_left' (by rw [List.length_append])
  have hpost : pyFind nlFence (D ++ (nlFence ++ W)) = some D.length := by
    rw [pyFind_eq_some_iff]
    refine ⟨?_, ?_⟩
    · rw [List.drop_left]
      exact List.prefix_append _ _
    · exact fun j hj => no_occ_before nlFence_no_border hD j hj
  unfold reSearchLazy
  rw [hfind]
  show (match pyFind nlFence ((A ++ (inputPre ++ (D ++ (nlFence ++ W)))).drop
      (A.length + inputPre.length)) with
    | none => none
    | some q => some (((A ++ (inputPre ++ (D ++ (nlFence ++ W)))).drop
        (A.length + inputPre.length)).take q)) = some D
  rw [hdrop, hpost]
  show some ((D ++ (nlFence ++ W)).take D.length) = some D
  rw [List.take_left]

lemma occ_extend {pat X : Str} {j : Nat} (h : pat <+: X.drop j) (H rr : Str) :
    pat <+: (H ++ (X ++ rr)).drop (H.length + j) := by
  have h1 : (H ++ (X ++ rr)).drop (H.length + j) = (X ++ rr).drop j := by
    rw [List.drop_append]
  rw [h1]
  by_cases hj : j ≤ X.length
  · rw [drop_append_le hj]
    exact h.trans (List.prefix_append _ _)
  · have hnil : X.drop j = [] := List.drop_eq_nil_of_le (by omega)
    rw [hnil] at h
    rw [List.prefix_nil.mp h]
    exact List.nil_prefix

lemma reSearchLazy_play_extend {T : Str} {code : Str}
    (hart : reSearchLazy playPre nlFence T = some code) (H rr : Str) :
    ∃ c2, reSearchLazy playPre nlFence (H ++ (T ++ rr)) = some c2 := by
  unfold reSearchLazy at hart
  cases hu : pyFind playPre T with
  | none => rw [hu] at hart; cases hart
  | some u =>
    rw [hu] at hart
    cases hv : pyFind nlFence (T.drop (u + playPre.length)) with
    | none => simp [hv] at hart
    | some v =>
      have hoccp : playPre <+: T.drop u := (pyFind_eq_some_iff.mp hu).1
      have hoccf : nlFence <+: T.drop (u + playPre.length + v) := by
        have h0 := (pyFind_eq_some_iff.mp hv).1
        rw [List.drop_drop] at h0
        exact h0
      have hoccp' : playPre <+: (H ++ (T ++ rr)).drop (H.length + u) :=
        occ_extend hoccp H rr
      have hoccf' : nlFence <+: (H ++ (T ++ rr)).drop
          (H.length + (u + playPre.length + v)) :=
        occ_extend hoccf H rr
      cases hu' : pyFind playPre (H ++ (T ++ rr)) with
      | none => exact absurd hoccp' (pyFind_eq_none_iff.mp hu' _)
      | some u0 =>
        have hmin := (pyFind_eq_some_iff.mp hu').2
        have hle : u0 ≤ H.length + u := by
          by_contra hgt
          exact hmin _ (by omega) hoccp'
        cases hv' : pyFind nlFence ((H ++ (T ++ rr)).drop (u0 + playPre.length)) with
        | none =>
          exfalso
          have hall := pyFind_eq_none_iff.mp hv'
          refine hall (H.length + v + u - u0) ?_
          rw [List.drop_drop]
          have harith : u0 + playPre.length + (H.length + v + u - u0) =
              H.length + (u + playPre.length + v) := by omega
          rw [harith]
          exact hoccf'
        | some w =>
          refine ⟨((H ++ (T ++ rr)).drop (u0 + playPre.length)).take w, ?_⟩
          unfold reSearchLazy
          rw [hu']
          show (match pyFind nlFence ((H ++ (T ++ rr)).drop (u0 + playPre.length)) with
            | none => none
            | some q => some (((H ++ (T ++ rr)).drop (u0 + playPre.length)).take q)) = _
          rw [hv']

lemma secOut_skip (parse : Str → Option Json) {sec : Str}
    (hplay : ¬ playPre <:+: sec) : secOut parse sec = [] := by
  have hnone : reSearchLazy playPre nlFence sec = none := by
    unfold reSearchLazy
    rw [ pyFind_none_iff_not_infix.mpr hplay]
  unfold secOut
  cases reSearchLine toolNamePre sec with
  | none => rfl
  | some nm =>
    cases reSearchLazy inputPre nlFence sec with
    | none => rfl
    | some ij => rw [hnone]

lemma hasArtifact_true {inv : SInv} (h : hasArtifact inv = true) :
    ∃ c ie t code, inv.result = some (c, ie) ∧ resTextC c = some t ∧
      artifactCode t = some code := by
  unfold hasArtifact at h
  cases hres : inv.result with
  | none => rw [hres] at h; cases h
  | some cie =>
    cases cie with
    | mk c ie =>
      rw [hres] at h
      have h2 : (match resTextC c with
        | some t => (artifactCode t).isSome
        | none => false) = true := h
      cases hrt : resTextC c with
      | none => rw [hrt] at h2; cases h2
      | some t =>
        rw [hrt] at h2
        have h3 : (artifactCode t).isSome = true := h2
        cases hart : artifactCode t with
        | none => rw [hart] at h3; simp at h3
        | some code => exact ⟨c, ie, t, code, rfl, hrt, hart⟩

lemma not_infix_mono {p s s' : Str} (hpre : s' <+: s) (h : ¬ p <:+: s) :
    ¬ p <:+: s' :=
  fun hin => h (hin.trans hpre.isInfix)

/-! ## Rendered section shapes -/

lemma headOf_shape1 (inv : SInv) (X : Str) :
    headOf inv ++ X =
      toolNamePre ++ (inv.name ++ '\n' ::
        (lineStr [] ++ (lineStr (lit "**Input:**") ++ (lineStr [] ++ (lineStr fenceJson ++
          (lineStr (format_tool_output inv.input) ++ (lineStr fence ++ (lineStr [] ++
          (lineStr (lit "**Output (" ++ inv.name ++ lit "):**") ++ (lineStr [] ++
          (lineStr fence ++ X))))))))))) := by
  rw [show (toolNamePre : Str) = toolMarker ++ lit " " from rfl]
  simp only [headOf, lineStr, List.append_assoc, List.cons_append, List.nil_append,
    List.singleton_append]

lemma headOf_shape2 (inv : SInv) (X : Str) :
    headOf inv ++ X =
      (toolNamePre ++ inv.name ++ lit "\n\n") ++
        (inputPre ++ (format_tool_output inv.input ++ (nlFence ++
          ('\n' :: '\n' :: (lineStr (lit "**Output (" ++ inv.name ++ lit "):**") ++
            (lineStr [] ++ (lineStr fence ++ X))))))) := by
  rw [show (toolNamePre : Str) = toolMarker ++ lit " " from rfl,
    show (inputPre : Str) =
      lineStr (lit "**Input:**") ++ (lineStr [] ++ lineStr fenceJson) from rfl,
    show (nlFence : Str) = '\n' :: fence from rfl,
    show (lit "\n\n" : Str) = '\n' :: '\n' :: ([] : Str) from rfl]
  simp only [headOf, lineStr, List.append_assoc, List.cons_append, List.nil_append,
    List.singleton_append, List.append_nil]

lemma sec_artifact_shape {inv : SInv} {c : Json} {ie : Option Bool} {t : Str}
    (hres : inv.result = some (c, ie)) (hrt : resTextC c = some t) (q : Str) :
    toolMarker ++ (callChunk inv ++ q) =
      headOf inv ++ (t ++ (nlFence ++ ('\n' :: '\n' :: q))) := by
  rw [show (nlFence : Str) = '\n' :: fence from rfl]
  simp only [callChunk, headOf, hres, hrt, lineStr, List.append_assoc,
    List.cons_append, List.nil_append, List.singleton_append]

lemma group_artifact_out (parse : Str → Option Json) {inv : SInv}
    (hWFi : invWF parse inv) {t code : Str}
    (hart : artifactCode t = some code) (X : Str) :
    secOut parse (headOf inv ++ (t ++ (nlFence ++ X))) = [(inv.name, inv.input)] := by
  obtain ⟨hn1, hn2, hn3, hf1, hf2, hf3, _⟩ := hWFi
  have h1 : reSearchLine toolNamePre (headOf inv ++ (t ++ (nlFence ++ X))) =
      some inv.name := by
    rw [headOf_shape1]
    exact reSearchLine_pre hn1 (fun ch hch => (hn2 ch hch).1)
  have h2 : reSearchLazy inputPre nlFence (headOf inv ++ (t ++ (nlFence ++ X))) =
      some (format_tool_output inv.input) := by
    rw [headOf_shape2]
    refine reSearchLazy_mid ?_ hf1
    intro d hd
    rcases List.mem_append.mp hd with hd1 | hd2
    · rcases List.mem_append.mp hd1 with hd3 | hd4
      · intro hdeq
        subst hdeq
        revert hd3
        decide
      · exact (hn2 d hd4).2
    · intro hdeq
      subst hdeq
      revert hd2
      decide
  obtain ⟨c2, hc2⟩ : ∃ c2, reSearchLazy playPre nlFence
      (headOf inv ++ (t ++ (nlFence ++ X))) = some c2 := by
    rw [show headOf inv ++ (t ++ (nlFence ++ X)) =
      headOf inv ++ ((t ++ nlFence) ++ X) from by rw [List.append_assoc]]
    exact reSearchLazy_play_extend hart (headOf inv) X
  unfold secOut
  rw [h1, h2, hc2]
  show (match parse (pyStrip (format_tool_output inv.input)) with
    | some input_data => [(pyStrip inv.name, input_data)]
    | none => []) = [(inv.name, inv.input)]
  rw [hf2, hf3, hn3]

lemma flatMap_out_filter (parse : Str → Option Json) :
    ∀ gs' : List (SInv × Str),
    (∀ g ∈ gs', secOut parse (toolMarker ++ g.2) =
      if hasArtifact g.1 then [(g.1.name, g.1.input)] else []) →
    gs'.flatMap (fun g => secOut parse (toolMarker ++ g.2)) =
      ((gs'.map Prod.fst).filter hasArtifact).map (fun inv => (inv.name, inv.input)) := by
  intro gs'
  induction gs' with
  | nil => intro _; rfl
  | cons g gs' ih =>
    intro h
    rw [List.flatMap_cons, h g (List.mem_cons_self _ _),
      ih (fun x hx => h x (List.mem_cons_of_mem _ hx))]
    rw [List.map_cons, List.filter_cons]
    cases hart : hasArtifact g.1 with
    | true => simp
    | false => simp

lemma goodGroups_ne_nil {gs : List (SInv × Str)} (h : goodGroups gs) :
    ∀ g ∈ gs, g.2 ≠ [] := by
  intro g hg hnil
  obtain ⟨q, hq⟩ := h g hg
  rw [hq] at hnil
  exact callChunk_ne_nil g.1 (List.append_eq_nil.mp hnil).1

/-! ## C1 amended: round-trip on well-formed canonical histories -/

/-- C1, amended: for every canonically shaped, injection-free history
(`histWF`), rendering with `format_conversation` (`show_tool_summary =
true`) succeeds, and `extract_tool_calls` applied to the rendered
document recovers exactly the `(tool_name, input_data)` pairs of those
tool invocations of the original history whose result carries a
recognizable Playwright code artifact, in original order. -/
theorem C1_roundtrip_amended (cfg : FormatterCfg) (now : Str)
    (parse : Str → Option Json) (hist : List SRecord)
    (hWF : histWF cfg now parse hist) :
    ∃ doc, format_conversation cfg now (hist.map toEntry) true = some doc ∧
      (extract_tool_calls_text parse doc).map (fun tc => (tc.tool_name, tc.input_data)) =
        ((allInvs hist).filter hasArtifact).map (fun inv => (inv.name, inv.input)) := by
  obtain ⟨hWFinv, hP0, hgs⟩ := hWF
  have hflat := format_flat cfg now true hist
    (fun inv hinv => (hWFinv inv hinv).2.2.2.2.2.2)
  refine ⟨_, hflat, ?_⟩
  have hchars := groupEvents_hist cfg now true hist
  have hdecomp := flatEvents_group (histEvents cfg now true hist)
  rw [hdecomp]
  cases hgs0 : (groupEvents (histEvents cfg now true hist)).2 with
  | nil =>
    have hinvs : allInvs hist = [] := by rw [← hchars.1, hgs0]; rfl
    rw [show secsStr [] = [] from rfl, List.append_nil, hinvs]
    have hextr : extract_tool_calls_text parse
        ((groupEvents (histEvents cfg now true hist)).1.dropLast) = [] := by
      have hfi : findIter toolMarker
          ((groupEvents (histEvents cfg now true hist)).1.dropLast) = [] := by
        show findIterAux toolMarker
          ((groupEvents (histEvents cfg now true hist)).1.dropLast) 0 0 = []
        refine findIterAux_none _ 0 (fun j hj => ?_)
        exact (not_infix_mono (List.dropLast_prefix _) hP0)
          ( occ_iff_infix.mp ⟨j, hj⟩)
      simp only [extract_tool_calls_text]
      rw [hfi]
      rfl
    rw [hextr]
    rfl
  | cons g0 gs0 =>
    have hgood : goodGroups (g0 :: gs0) := by rw [← hgs0]; exact hchars.2
    have hbne : ∀ g ∈ (g0 :: gs0), g.2 ≠ [] := goodGroups_ne_nil hgood
    have hbmarker : ∀ g ∈ (g0 :: gs0), ¬ toolMarker <:+: g.2 := by
      intro g hg
      exact (hgs g (by rw [hgs0]; exact hg)).1
    rw [show ((groupEvents (histEvents cfg now true hist)).1 ++
        secsStr (g0 :: gs0)).dropLast =
      (groupEvents (histEvents cfg now true hist)).1 ++
        secsStr (trimLast (g0 :: gs0)) from by
        rw [List.dropLast_append_of_ne_nil _ secsStr_ne_nil,
          secsStr_trimLast (by simp) hbne]]
    have hbtrim : ∀ g' ∈ trimLast (g0 :: gs0), ¬ toolMarker <:+: g'.2 := by
      intro g' hg'
      obtain ⟨g, hgmem, _, hbody⟩ := trimLast_mem hg'
      cases hbody with
      | inl h => rw [h]; exact hbmarker g hgmem
      | inr h =>
        rw [h]
        exact not_infix_mono (List.dropLast_prefix _) (hbmarker g hgmem)
    rw [extract_proj_eq parse hP0 hbtrim]
    have hper : ∀ g' ∈ trimLast (g0 :: gs0),
        secOut parse (toolMarker ++ g'.2) =
          if hasArtifact g'.1 then [(g'.1.name, g'.1.input)] else [] := by
      intro g' hg'
      obtain ⟨g, hgmem, hfst, hbody⟩ := trimLast_mem hg'
      have hInvMem : g.1 ∈ allInvs hist := by
        rw [← hchars.1, hgs0]
        exact List.mem_map.mpr ⟨g, hgmem, rfl⟩
      have hWFi := hWFinv g.1 hInvMem
      obtain ⟨q, hq⟩ := hgood g hgmem
      cases hart : hasArtifact g'.1 with
      | false =>
        have hartg : hasArtifact g.1 = false := by rw [← hfst]; exact hart
        have hply : ¬ playPre <:+: (toolMarker ++ g.2) :=
          (hgs g (by rw [hgs0]; exact hgmem)).2 hartg
        have hply' : ¬ playPre <:+: (toolMarker ++ g'.2) := by
          cases hbody with
          | inl h => rw [h]; exact hply
          | inr h =>
            rw [h]
            refine not_infix_mono ?_ hply
            obtain ⟨u, hu⟩ := List.dropLast_prefix g.2
            exact ⟨u, by rw [List.append_assoc, hu]⟩
        rw [secOut_skip parse hply']
        simp
      | true =>
        have hartg : hasArtifact g.1 = true := by rw [← hfst]; exact hart
        obtain ⟨c, ie, t, code, hres, hrt, hartc⟩ := hasArtifact_true hartg
        simp only [if_pos]
        rw [hfst]
        cases hbody with
        | inl h =>
          rw [h, hq, sec_artifact_shape hres hrt q]
          exact group_artifact_out parse hWFi hartc _
        | inr h =>
          have hXne : callChunk g.1 ++ q ≠ [] := by
            intro hnil
            exact callChunk_ne_nil g.1 (List.append_eq_nil.mp hnil).1
          have hstep : toolMarker ++ g'.2 =
              headOf g.1 ++ (t ++ (nlFence ++ ('\n' :: '\n' :: q).dropLast)) := by
            rw [h, hq]
            rw [show toolMarker ++ (callChunk g.1 ++ q).dropLast =
              (toolMarker ++ (callChunk g.1 ++ q)).dropLast from by
                rw [List.dropLast_append_of_ne_nil _ hXne]]
            rw [sec_artifact_shape hres hrt q]
            rw [List.dropLast_append_of_ne_nil _ (by
              intro hnil
              have := congrArg List.length hnil
              simp at this)]
            rw [List.dropLast_append_of_ne_nil _ (by
              intro hnil
              have := congrArg List.length hnil
              simp [nlFence, lit] at this)]
            rw [List.dropLast_append_of_ne_nil _ (by simp)]
          rw [hstep]
          exact group_artifact_out parse hWFi hartc _
    rw [flatMap_out_filter parse _ hper, trimLast_map_fst]
    rw [show (g0 :: gs0).map Prod.fst = allInvs hist from by
      rw [← hgs0]; exact hchars.1]

set_option maxRecDepth 4000 in
/-- C1 amended, witness: the canonical one-record history `histW`
satisfies `histWF` and the round-trip equality, at concrete inputs. -/
theorem C1_roundtrip_amended_witness :
    ∃ doc, format_conversation cfg8 (lit "ts") (histW.map toEntry) true = some doc ∧
      (extract_tool_calls_text parseW doc).map
          (fun tc => (tc.tool_name, tc.input_data)) =
        ((allInvs histW).filter hasArtifact).map (fun inv => (inv.name, inv.input)) :=
  C1_roundtrip_amended cfg8 (lit "ts") parseW histW (by
    refine ⟨?_, ?_, ?_⟩
    · intro inv hinv
      rw [show allInvs histW = [invW] from rfl] at hinv
      rw [List.mem_singleton] at hinv
      subst hinv
      refine ⟨by decide, by decide, by decide, ?_, rfl, rfl, ?_⟩
      · exact pyFind_none_iff_not_infix.mp rfl
      · show contentOK (.arr [.obj [(lit "text", .str artW)]]) = true
        rfl
    · exact pyFind_none_iff_not_infix.mp rfl
    · intro g hg
      rw [show (groupEvents (histEvents cfg8 (lit "ts") true histW)).2 =
        [(invW, callChunk invW ++ (flatLines (recPostLines true recW) ++ []))]
        from rfl] at hg
      rw [List.mem_singleton] at hg
      subst hg
      refine ⟨?_, ?_⟩
      · exact pyFind_none_iff_not_infix.mp rfl
      · intro hfalse
        rw [show hasArtifact invW = true from rfl] at hfalse
        cases hfalse)

end SelfHealing
